import Mathlib

/-!
Verification of the `rel` schema construction code
(`pkg/sql/schemachanger/rel/schema.go`): a shallow embedding of the
schema builder, its attribute-ordinal registry, selector resolution,
field classification and accessor generation, together with proofs of
the specified properties.
-/

namespace Rel

/-- Attribute tokens (`Attr` in the source): opaque comparable values.
User attributes are modelled as named tokens; `self` and `typ` are the
two reserved attributes `Self` and `Type`. -/
inductive Attr where
  | user (name : String)
  | self
  | typ
deriving DecidableEq

/-- A shallow model of the Go `reflect.Type` values this package
manipulates: signed and unsigned integer kinds (with their bit width),
strings, named struct types with a field list (field name, byte offset,
field type), pointers, and the interface types that appear in the
source (`interface{}` alias `emptyInterfaceType`, user interfaces, and
`reflect.Type` alias `reflectTypeType`).  A user interface carries the
fully qualified names of the types implementing it, which makes Go's
`Type.Implements` method-set check decidable in the model. -/
inductive GoType where
  | int (width : Nat)
  | uint (width : Nat)
  | str
  | strukt (name : String) (fields : List (String × Nat × GoType))
  | ptr (elem : GoType)
  | anyIface
  | iface (name : String) (implementors : List String)
  | reflectType

namespace GoType

mutual

/-- Boolean structural equality on `GoType` (Go compares `reflect.Type`
values for identity; structural equality is its model here). -/
def beq : GoType → GoType → Bool
  | int w, int w' => w == w'
  | uint w, uint w' => w == w'
  | str, str => true
  | strukt n fs, strukt n' fs' => n == n' && beqFields fs fs'
  | ptr t, ptr t' => beq t t'
  | anyIface, anyIface => true
  | iface n l, iface n' l' => n == n' && l == l'
  | reflectType, reflectType => true
  | _, _ => false

/-- Boolean equality on struct field lists. -/
def beqFields : List (String × Nat × GoType) → List (String × Nat × GoType) → Bool
  | [], [] => true
  | (n, o, t) :: r, (n', o', t') :: r' =>
      n == n' && o == o' && beq t t' && beqFields r r'
  | _, _ => false

end

mutual

theorem beq_refl : ∀ a : GoType, beq a a = true
  | int _ => by simp [beq]
  | uint _ => by simp [beq]
  | str => by simp [beq]
  | strukt n fs => by simp [beq, beqFields_refl fs]
  | ptr t => by simp [beq, beq_refl t]
  | anyIface => by simp [beq]
  | iface n l => by simp [beq]
  | reflectType => by simp [beq]

theorem beqFields_refl : ∀ fs : List (String × Nat × GoType), beqFields fs fs = true
  | [] => by simp [beqFields]
  | (n, o, t) :: r => by simp [beqFields, beq_refl t, beqFields_refl r]

end

mutual

theorem eq_of_beq : ∀ a b : GoType, beq a b = true → a = b
  | int _, int _, h => by simp [beq] at h; simp [h]
  | uint _, uint _, h => by simp [beq] at h; simp [h]
  | str, str, _ => rfl
  | strukt n fs, strukt n' fs', h => by
      simp only [beq, Bool.and_eq_true, beq_iff_eq] at h
      obtain ⟨h1, h2⟩ := h
      simp [h1, eqFields_of_beqFields fs fs' h2]
  | ptr t, ptr t', h => by
      simp only [beq] at h
      simp [eq_of_beq t t' h]
  | anyIface, anyIface, _ => rfl
  | iface n l, iface n' l', h => by simp [beq] at h; simp [h.1, h.2]
  | reflectType, reflectType, _ => rfl

theorem eqFields_of_beqFields :
    ∀ fs fs' : List (String × Nat × GoType), beqFields fs fs' = true → fs = fs'
  | [], [], _ => rfl
  | (n, o, t) :: r, (n', o', t') :: r', h => by
      simp only [beqFields, Bool.and_eq_true, beq_iff_eq] at h
      obtain ⟨⟨⟨h1, h2⟩, h3⟩, h4⟩ := h
      simp [h1, h2, eq_of_beq t t' h3, eqFields_of_beqFields r r' h4]

end

instance : DecidableEq GoType := fun a b =>
  if h : beq a b = true then isTrue (eq_of_beq a b h)
  else isFalse (fun hh => h (hh ▸ beq_refl a))

/-- `t.Elem()` for pointer types (callers only use it on pointers). -/
def elem : GoType → GoType
  | ptr t => t
  | t => t

/-- Whether the type's `Kind()` is `reflect.Interface`. -/
def isInterface : GoType → Bool
  | anyIface => true
  | iface _ _ => true
  | reflectType => true
  | _ => false

/-- Whether the type's `Kind()` is `reflect.Ptr`. -/
def isPtrKind : GoType → Bool
  | ptr _ => true
  | _ => false

/-- Whether the type's `Kind()` is `reflect.Struct`. -/
def isStructKind : GoType → Bool
  | strukt _ _ => true
  | _ => false

/-- `isIntKind`: the signed integer kinds. -/
def isIntKind : GoType → Bool
  | int _ => true
  | _ => false

/-- `isUintKind`: the unsigned integer kinds. -/
def isUintKind : GoType → Bool
  | uint _ => true
  | _ => false

/-- The fully qualified name of a type, used by the canonical ordering
of entity types.  Modelled from the spec: the sort's "primary key
derived from the type's fully qualified name" (`compareTypes` itself is
not part of the sources under verification). -/
def sortName : GoType → String
  | int w => "int" ++ toString w
  | uint w => "uint" ++ toString w
  | str => "string"
  | strukt n _ => n
  | ptr t => "*" ++ sortName t
  | anyIface => "interface"
  | iface n _ => n
  | reflectType => "reflect.Type"

/-- Go's `typ.Implements(exp)` for the interface types of the model: an
interface implements itself, `interface{}` is implemented by every
type, and a user interface is implemented by the types whose qualified
names it lists. -/
def implements (typ : GoType) (exp : GoType) : Bool :=
  match exp with
  | anyIface => true
  | iface n impls => typ.sortName = n || typ.sortName ∈ impls
  | reflectType => typ == reflectType
  | _ => false

end GoType

/-- The structured contents of the construction-time errors raised in
`schema.go` (each constructor records the data interpolated into the
corresponding `errors.Errorf`/`errors.Wrapf` message). -/
inductive RelError where
  /-- `type mismatch for %v: %v does not implement %v` /
      `type mismatch for %v: %v is not %v` (from `maybeAddAttribute`
      wrapping `checkType`). -/
  | typeMismatch (a : Attr) (typ exp : GoType)
  /-- `too many attributes` (from `maybeAddAttribute`). -/
  | tooManyAttributes
  /-- `%v is not a pointer to a struct` (from `maybeAddTypeMapping`). -/
  | notStructPointer (t : GoType)
  /-- `%v.%s is not a field` (from `getOffsetAndTypeFromSelector`). -/
  | notAField (structPointer : GoType) (selector : String)
  /-- `selector %q of %v has unsupported type %v` (from
      `addTypeAttrMapping`). -/
  | unsupportedType (sel : String) (t cur : GoType)
  /-- `unknown attribute %s in schema %s` (from `getOrdinal`). -/
  | unknownAttribute (a : Attr) (schemaName : String)
  /-- the `reflect` panic raised by `Type.FieldByName` when the current
      selector step is applied to a non-struct type. -/
  | fieldOfNonStruct (structPointer : GoType) (selector : String)
deriving DecidableEq

/-- `checkType` determines whether, either, the typ matches exp or the
typ implements exp which is an interface type. Returns `true` on
success (the Go function returns a nil error). -/
def checkType (typ exp : GoType) : Bool :=
  if exp.isInterface then typ.implements exp
  else typ == exp

/-! ### Executable string primitives

The Go code compares type names with the built-in string `<` and splits
selectors with `strings.Split(sel, ".")`.  Both are modelled here by
structurally recursive functions over the underlying character lists,
so that every definition in this file evaluates by kernel reduction. -/

/-- Lexicographic comparison of character lists by code point: the
semantics of Go's string `<`. -/
def charsLt : List Char → List Char → Bool
  | [], [] => false
  | [], _ :: _ => true
  | _ :: _, [] => false
  | a :: as, b :: bs =>
      if a.toNat < b.toNat then true
      else if b.toNat < a.toNat then false
      else charsLt as bs

/-- Go's string `<` on the models' name strings. -/
def strLt (a b : String) : Bool := charsLt a.data b.data

theorem charsLt_asymm :
    ∀ {a b : List Char}, charsLt a b = true → charsLt b a = false := by
  intro a
  induction a with
  | nil =>
      intro b h
      cases b with
      | nil => simp [charsLt] at h
      | cons d ds => simp [charsLt]
  | cons c cs ih =>
      intro b h
      cases b with
      | nil => simp [charsLt] at h
      | cons d ds =>
          simp only [charsLt] at h ⊢
          rcases Nat.lt_trichotomy c.toNat d.toNat with h1 | h1 | h1
          · rw [if_neg (show ¬ d.toNat < c.toNat by omega), if_pos h1]
          · rw [if_neg (show ¬ c.toNat < d.toNat by omega),
              if_neg (show ¬ d.toNat < c.toNat by omega)] at h
            rw [if_neg (show ¬ d.toNat < c.toNat by omega),
              if_neg (show ¬ c.toNat < d.toNat by omega)]
            exact ih h
          · rw [if_neg (show ¬ c.toNat < d.toNat by omega), if_pos h1] at h
            cases h

theorem charsLt_connex :
    ∀ {a b : List Char}, charsLt a b = false → charsLt b a = false → a = b := by
  intro a
  induction a with
  | nil =>
      intro b h1 h2
      cases b with
      | nil => rfl
      | cons d ds => simp [charsLt] at h1
  | cons c cs ih =>
      intro b h1 h2
      cases b with
      | nil => simp [charsLt] at h2
      | cons d ds =>
          simp only [charsLt] at h1 h2
          rcases Nat.lt_trichotomy c.toNat d.toNat with hc | hc | hc
          · rw [if_pos hc] at h1
            cases h1
          · rw [if_neg (show ¬ c.toNat < d.toNat by omega),
              if_neg (show ¬ d.toNat < c.toNat by omega)] at h1
            rw [if_neg (show ¬ d.toNat < c.toNat by omega),
              if_neg (show ¬ c.toNat < d.toNat by omega)] at h2
            have hcd : c = d := by
              apply Char.ext
              apply UInt32.ext
              exact hc
            rw [hcd, ih h1 h2]
          · rw [if_pos hc] at h2
            cases h2

theorem charsLt_trans :
    ∀ {a b c : List Char}, charsLt a b = true → charsLt b c = true →
      charsLt a c = true := by
  intro a
  induction a with
  | nil =>
      intro b c h1 h2
      cases b with
      | nil => simp [charsLt] at h1
      | cons d ds =>
          cases c with
          | nil => simp [charsLt] at h2
          | cons e es => simp [charsLt]
  | cons x xs ih =>
      intro b c h1 h2
      cases b with
      | nil => simp [charsLt] at h1
      | cons y ys =>
          cases c with
          | nil => simp [charsLt] at h2
          | cons z zs =>
              simp only [charsLt] at h1 h2 ⊢
              rcases Nat.lt_trichotomy x.toNat y.toNat with hxy | hxy | hxy
              all_goals rcases Nat.lt_trichotomy y.toNat z.toNat with hyz | hyz | hyz
              · rw [if_pos (show x.toNat < z.toNat by omega)]
              · rw [if_pos (show x.toNat < z.toNat by omega)]
              · rw [if_neg (show ¬ y.toNat < z.toNat by omega),
                  if_pos (show z.toNat < y.toNat by omega)] at h2
                cases h2
              · rw [if_pos (show x.toNat < z.toNat by omega)]
              · rw [if_neg (show ¬ x.toNat < y.toNat by omega),
                  if_neg (show ¬ y.toNat < x.toNat by omega)] at h1
                rw [if_neg (show ¬ y.toNat < z.toNat by omega),
                  if_neg (show ¬ z.toNat < y.toNat by omega)] at h2
                rw [if_neg (show ¬ x.toNat < z.toNat by omega),
                  if_neg (show ¬ z.toNat < x.toNat by omega)]
                exact ih h1 h2
              · rw [if_neg (show ¬ y.toNat < z.toNat by omega),
                  if_pos (show z.toNat < y.toNat by omega)] at h2
                cases h2
              all_goals rw [if_neg (show ¬ x.toNat < y.toNat by omega),
                if_pos (show y.toNat < x.toNat by omega)] at h1
              all_goals cases h1

/-- `strings.Split(s, ".")`: the selector syntax's one-character
separator, over the character list. -/
def splitChars (sep : Char) : List Char → List (List Char)
  | [] => [[]]
  | c :: cs =>
      if c = sep then [] :: splitChars sep cs
      else
        match splitChars sep cs with
        | [] => [[c]]
        | r :: rs => (c :: r) :: rs

/-- `strings.Split(sel, ".")`. -/
def splitOnDot (s : String) : List String :=
  (splitChars (Char.ofNat 46) s.data).map List.asString

/-! ### Field flags and the field classifier -/

/-- `intField` bit of `fieldFlags`. -/
def intField : Nat := 1
/-- `uintField` bit of `fieldFlags`. -/
def uintField : Nat := 2
/-- `stringField` bit of `fieldFlags`. -/
def stringField : Nat := 4
/-- `structField` bit of `fieldFlags`. -/
def structField : Nat := 8
/-- `pointerField` bit of `fieldFlags`. -/
def pointerField : Nat := 16

/-- `fieldFlags` is an `int8` bitmask in the source. -/
structure fieldFlags where
  mask : Nat
deriving DecidableEq

/-- `f.isPtr()`. -/
def fieldFlags.isPtr (f : fieldFlags) : Bool := f.mask &&& pointerField != 0

/-- `f.isScalar()`. -/
def fieldFlags.isScalar (f : fieldFlags) : Bool :=
  f.mask &&& (intField ||| stringField ||| uintField) != 0

/-- `f.isStruct()`. -/
def fieldFlags.isStruct (f : fieldFlags) : Bool := f.mask &&& structField != 0

/-- `f.isInt()`. -/
def fieldFlags.isInt (f : fieldFlags) : Bool := f.mask &&& intField != 0

/-- `f.isUint()`. -/
def fieldFlags.isUint (f : fieldFlags) : Bool := f.mask &&& uintField != 0

/-- `f.isIntLike()`. -/
def fieldFlags.isIntLike (f : fieldFlags) : Bool :=
  f.mask &&& (intField ||| uintField) != 0

/-- `f.isString()`. -/
def fieldFlags.isString (f : fieldFlags) : Bool := f.mask &&& stringField != 0

/-- `makeFieldFlags` classifies a field type into its storage kind,
returning `none` for the unsupported kinds. -/
def makeFieldFlags (t : GoType) : Option fieldFlags :=
  let f : Nat := if t.isPtrKind then pointerField else 0
  let t := if t.isPtrKind then t.elem else t
  if t.isStructKind && fieldFlags.isPtr ⟨f⟩ then some ⟨f ||| structField⟩
  else if t == GoType.str then some ⟨f ||| stringField⟩
  else if t.isIntKind then some ⟨f ||| intField⟩
  else if t.isUintKind then some ⟨f ||| uintField⟩
  else none

/-! ### Selector resolution -/

/-- `cur.FieldByName(n)`: find a struct field by name, yielding its
offset and declared type. -/
def findFieldByName (fields : List (String × Nat × GoType)) (n : String) :
    Option (Nat × GoType) :=
  (fields.find? (fun p => p.1 == n)).map (·.2)

/-- The loop body of `getOffsetAndTypeFromSelector`: walk the selector
segments, accumulating the field offsets and descending into each
field's declared type. -/
def resolveSelector (structPointer : GoType) (selector : String) :
    List String → Nat → GoType → Except RelError (Nat × GoType)
  | [], offset, cur => .ok (offset, cur)
  | n :: rest, offset, cur =>
    match cur with
    | GoType.strukt _ fields =>
      match findFieldByName fields n with
      | none => .error (.notAField structPointer selector)
      | some (off, ty) =>
          resolveSelector structPointer selector rest (offset + off) ty
    | _ => .error (.fieldOfNonStruct structPointer selector)

/-- `getOffsetAndTypeFromSelector` takes an entity (struct pointer)
type and a selector string and finds its offset within the struct
(splitting the selector on `.` and accumulating each named field's
offset). -/
def getOffsetAndTypeFromSelector (structPointer : GoType) (selector : String) :
    Except RelError (Nat × GoType) :=
  resolveSelector structPointer selector (splitOnDot selector) 0 structPointer.elem

/-! ### Entity instance values

Entities are in-memory Go values reached through a struct pointer.  The
generated accessors read fields of the pointed-to struct at resolved
offsets; the model represents an entity as the pointed-to structured
value and reads fields by walking the same selector path that produced
the offset.  A non-nil pointer to a scalar is modelled by its pointee
(the accessors only ever dereference it), and a non-nil pointer to a
struct by the address of the referenced entity (the accessors never
dereference it, and its identity is the address). -/

/-- A Go value of one of the supported field types. -/
inductive GoVal where
  | intV (n : Int)
  | uintV (n : Nat)
  | strV (s : String)
  | structV (fields : List (String × GoVal))
  | ptrNil
  | ptrScalar (v : GoVal)
  | ptrStruct (addr : Nat)

namespace GoVal

mutual

/-- Boolean structural equality on `GoVal`. -/
def beqV : GoVal → GoVal → Bool
  | intV n, intV n' => n == n'
  | uintV n, uintV n' => n == n'
  | strV s, strV s' => s == s'
  | structV fs, structV fs' => beqVFields fs fs'
  | ptrNil, ptrNil => true
  | ptrScalar v, ptrScalar v' => beqV v v'
  | ptrStruct a, ptrStruct a' => a == a'
  | _, _ => false

/-- Boolean equality on struct value field lists. -/
def beqVFields : List (String × GoVal) → List (String × GoVal) → Bool
  | [], [] => true
  | (n, v) :: r, (n', v') :: r' => n == n' && beqV v v' && beqVFields r r'
  | _, _ => false

end

mutual

theorem beqV_refl : ∀ a : GoVal, beqV a a = true
  | intV _ => by simp [beqV]
  | uintV _ => by simp [beqV]
  | strV _ => by simp [beqV]
  | structV fs => by simp [beqV, beqVFields_refl fs]
  | ptrNil => by simp [beqV]
  | ptrScalar v => by simp [beqV, beqV_refl v]
  | ptrStruct _ => by simp [beqV]

theorem beqVFields_refl : ∀ fs : List (String × GoVal), beqVFields fs fs = true
  | [] => by simp [beqVFields]
  | (n, v) :: r => by simp [beqVFields, beqV_refl v, beqVFields_refl r]

end

mutual

theorem eq_of_beqV : ∀ a b : GoVal, beqV a b = true → a = b
  | intV _, intV _, h => by simp [beqV] at h; simp [h]
  | uintV _, uintV _, h => by simp [beqV] at h; simp [h]
  | strV _, strV _, h => by simp [beqV] at h; simp [h]
  | structV fs, structV fs', h => by
      simp only [beqV] at h
      simp [eqVFields_of_beqVFields fs fs' h]
  | ptrNil, ptrNil, _ => rfl
  | ptrScalar v, ptrScalar v', h => by
      simp only [beqV] at h
      simp [eq_of_beqV v v' h]
  | ptrStruct _, ptrStruct _, h => by simp [beqV] at h; simp [h]

theorem eqVFields_of_beqVFields :
    ∀ fs fs' : List (String × GoVal), beqVFields fs fs' = true → fs = fs'
  | [], [], _ => rfl
  | (n, v) :: r, (n', v') :: r', h => by
      simp only [beqVFields, Bool.and_eq_true, beq_iff_eq] at h
      obtain ⟨⟨h1, h2⟩, h3⟩ := h
      simp [h1, eq_of_beqV v v' h2, eqVFields_of_beqVFields r r' h3]

end

instance : DecidableEq GoVal := fun a b =>
  if h : beqV a b = true then isTrue (eq_of_beqV a b h)
  else isFalse (fun hh => h (hh ▸ beqV_refl a))

/-- Reading one named field out of a struct value. -/
def field? : GoVal → String → Option GoVal
  | structV fs, n => (fs.find? (fun p => p.1 == n)).map (·.2)
  | _, _ => none

end GoVal

/-- Reading the field a selector denotes out of an entity value: the
model of dereferencing the struct pointer at the selector's resolved
offset. -/
def getBySelector (e : GoVal) (sel : String) : Option GoVal :=
  (splitOnDot sel).foldlM GoVal.field? e

/-! ### Field descriptors and the generated accessors

The source `fieldInfo` stores three closures generated once per field
by `addTypeAttrMapping`, each bound to the field's offset and flags.
The model stores the data the closures are bound to (`path`, `typ`,
`attr`, `fieldFlags`) and defines the closure bodies as functions of a
`fieldInfo` — the branch on `fieldFlags` that the source performs at
generation time is performed at application time, on the same flags. -/

/-- `fieldInfo`: one (attribute, record type, selector) mapping. -/
structure fieldInfo where
  path : String
  typ : GoType
  attr : Nat
  fieldFlags : fieldFlags
deriving DecidableEq

/-- `uintptr` conversion of a signed 64-bit integer value (the model's
machine word is 64 bits wide; conversion is reduction mod `2^64`). -/
def toUintptr (n : Int) : Nat := (n % (2 ^ 64)).toNat

namespace fieldInfo

/-- The generated `value()` accessor: the field's value in
dynamically-typed form, `none` for a nil result (unset optional).  The
catch-all branches cover entity values that are not of the generated
shape, which is undefined behavior in the source (the accessor would
reinterpret foreign memory); the theorems below always supply entities
of the proper shape. -/
def value (f : fieldInfo) (e : GoVal) : Option GoVal :=
  if f.fieldFlags.isPtr && f.fieldFlags.isStruct then
    match getBySelector e f.path with
    | some (GoVal.ptrStruct a) => some (GoVal.ptrStruct a)
    | _ => none
  else if f.fieldFlags.isPtr && f.fieldFlags.isScalar then
    match getBySelector e f.path with
    | some (GoVal.ptrScalar v) => some v
    | _ => none
  else
    getBySelector e f.path

/-- The generated `inline()` accessor: integer-like kinds yield the
value converted to `uintptr` plus a presence flag; nil optionals and
the string/struct kinds yield `(0, false)`. -/
def inline (f : fieldInfo) (e : GoVal) : Nat × Bool :=
  if f.fieldFlags.isPtr && f.fieldFlags.isInt then
    match getBySelector e f.path with
    | some (GoVal.ptrScalar (GoVal.intV n)) => (toUintptr n, true)
    | _ => (0, false)
  else if f.fieldFlags.isPtr && f.fieldFlags.isUint then
    match getBySelector e f.path with
    | some (GoVal.ptrScalar (GoVal.uintV n)) => (n % 2 ^ 64, true)
    | _ => (0, false)
  else if f.fieldFlags.isInt then
    match getBySelector e f.path with
    | some (GoVal.intV n) => (toUintptr n, true)
    | _ => (0, false)
  else if f.fieldFlags.isUint then
    match getBySelector e f.path with
    | some (GoVal.uintV n) => (n % 2 ^ 64, true)
    | _ => (0, false)
  else
    (0, false)

end fieldInfo

/-- The result of the generated `comparableValue()` accessor together
with its equality semantics.  Modelled from the spec: for struct-kind
fields the comparable form is the record reference itself (equality =
same referenced entity); for scalar kinds it is a canonicalized
comparable form, compared by underlying value after dereferencing the
optional wrapper.  (The source returns a pointer re-typed at
`getComparableType`; `getComparableType` and the code consuming these
results by pointed-to-value comparison are outside the sources under
verification.) -/
inductive CmpVal where
  | absent
  | scalar (v : GoVal)
  | ref (addr : Nat)
deriving DecidableEq

/-- The generated `comparableValue()` accessor, producing the
comparable form described at `CmpVal`. -/
def fieldInfo.comparableValue (f : fieldInfo) (e : GoVal) : CmpVal :=
  if f.fieldFlags.isStruct then
    match getBySelector e f.path with
    | some (GoVal.ptrStruct a) => CmpVal.ref a
    | _ => CmpVal.absent
  else if f.fieldFlags.isPtr && f.fieldFlags.isScalar then
    match getBySelector e f.path with
    | some (GoVal.ptrScalar v) => CmpVal.scalar v
    | _ => CmpVal.absent
  else
    match getBySelector e f.path with
    | some v => CmpVal.scalar v
    | none => CmpVal.absent

/-! ### The schema and its builder -/

/-- Modelled from the spec: the fixed maximum on the number of
attributes ("construction fails if the attribute count would exceed a
fixed maximum").  The constant `maxUserAttribute` is declared outside
the sources under verification; the model fixes it at 64, the width of
the ordinal-set bitmask the ordinals index into. -/
def maxUserAttribute : Nat := 64

/-- `entityTypeSchema`: the per-record-type schema. -/
structure entityTypeSchema where
  typ : GoType
  fields : List fieldInfo
  /-- `attrFields`: the field descriptors grouped by attribute ordinal
  (a map `ordinal → []fieldInfo` in the source, modelled as the
  association list the grouping loop produces). -/
  attrFields : List (Nat × List fieldInfo)
  /-- `typID` is the rank of the type of this entity in the schema. -/
  typID : Nat
deriving DecidableEq

/-- `Schema` defines a mapping of entities to their attributes and
decomposition.  The `rules`/`rulesByName` registry and the
`stringAttrs` cache are not populated by any code under verification
and are omitted. -/
structure Schema where
  name : String
  attrs : List Attr
  attrTypes : List GoType
  /-- `attrToOrdinal` (a Go map, modelled as an association list). -/
  attrToOrdinal : List (Attr × Nat)
  entityTypes : List entityTypeSchema
  /-- `entityTypeSchemas` (a Go map keyed by type, modelled as an
  association list). -/
  entityTypeSchemas : List (GoType × entityTypeSchema)
  typeOrdinal : Nat
  selfOrdinal : Nat
deriving DecidableEq

/-- Lookup in the `attrToOrdinal` map. -/
def findOrd (m : List (Attr × Nat)) (a : Attr) : Option Nat :=
  (m.find? (fun p => p.1 == a)).map (·.2)

/-- The schema the builder starts from (`buildSchema`'s literal). -/
def emptySchema (name : String) : Schema :=
  { name := name, attrs := [], attrTypes := [], attrToOrdinal := [],
    entityTypes := [], entityTypeSchemas := [],
    typeOrdinal := 0, selfOrdinal := 0 }

/-- `maybeAddAttribute` registers attribute `a` with type `typ` and
returns its ordinal: a fresh attribute is appended to the registry
(failing on attribute-space exhaustion), an existing one keeps its
ordinal after validating `typ` against the previously fixed type with
`checkType`.  Construction-time panics are modelled as `Except.error`
(they are caught by `NewSchema`, see below). -/
def maybeAddAttribute (sb : Schema) (a : Attr) (typ : GoType) :
    Except RelError (Schema × Nat) :=
  match findOrd sb.attrToOrdinal a with
  | none =>
    let ord := sb.attrs.length
    if maxUserAttribute ≤ ord then .error RelError.tooManyAttributes
    else .ok ({ sb with
        attrs := sb.attrs ++ [a],
        attrTypes := sb.attrTypes ++ [typ],
        attrToOrdinal := sb.attrToOrdinal ++ [(a, ord)] }, ord)
  | some ord =>
    let prev := sb.attrTypes.getD ord GoType.str
    if checkType typ prev then .ok (sb, ord)
    else .error (RelError.typeMismatch a typ prev)

/-- `addTypeAttrMapping` resolves one selector, classifies the field,
registers the attribute (unwrapping an optional scalar's pointer type
first) and produces the field descriptor the accessors are generated
from.  The resolved offset is consumed only by the generated closures,
which the model binds through the selector path instead. -/
def addTypeAttrMapping (sb : Schema) (a : Attr) (t : GoType) (sel : String) :
    Except RelError (Schema × fieldInfo) := do
  let (_offset, cur) ← getOffsetAndTypeFromSelector t sel
  match makeFieldFlags cur with
  | none => .error (.unsupportedType sel t cur)
  | some flags =>
    let typ := if flags.isPtr && flags.isScalar then cur.elem else cur
    let (sb, ord) ← maybeAddAttribute sb a typ
    .ok (sb, { path := sel, typ := typ, attr := ord, fieldFlags := flags })

/-- The inner loop of `maybeAddTypeMapping`: one attribute mapping's
selectors, in order. -/
def addSelectors (sb : Schema) (a : Attr) (t : GoType) :
    List String → Except RelError (Schema × List fieldInfo)
  | [] => .ok (sb, [])
  | sel :: rest => do
      let (sb, fi) ← addTypeAttrMapping sb a t sel
      let (sb, fis) ← addSelectors sb a t rest
      .ok (sb, fi :: fis)

/-- The outer loop of `maybeAddTypeMapping`: every attribute mapping of
one record type, in order. -/
def addAttrMappings (sb : Schema) (t : GoType) :
    List (Attr × List String) → Except RelError (Schema × List fieldInfo)
  | [] => .ok (sb, [])
  | (a, sels) :: rest => do
      let (sb, fis) ← addSelectors sb a t sels
      let (sb, fis') ← addAttrMappings sb t rest
      .ok (sb, fis ++ fis')

/-- The ordering `sort.Slice` establishes over a type's field
descriptors (`fieldInfos[i].attr < fieldInfos[j].attr`); the sort's
contract specifies the result up to the order of ties. -/
def attrLE (a b : fieldInfo) : Prop := a.attr ≤ b.attr

instance : DecidableRel attrLE := fun a b => Nat.decLe a.attr b.attr

instance : IsTotal fieldInfo attrLE := ⟨fun a b => Nat.le_total a.attr b.attr⟩

instance : IsTrans fieldInfo attrLE := ⟨fun _ _ _ h h' => Nat.le_trans h h'⟩

/-- The grouping loop of `maybeAddTypeMapping`: scan the sorted field
descriptors and collect each run of equal attribute ordinals. -/
def groupByAttr : List fieldInfo → List (Nat × List fieldInfo)
  | [] => []
  | f :: rest => groupRun f.attr [f] rest
where
  /-- one run in progress: its ordinal, its members (reversed). -/
  groupRun (cur : Nat) (acc : List fieldInfo) :
      List fieldInfo → List (Nat × List fieldInfo)
  | [] => [(cur, acc.reverse)]
  | g :: rest =>
      if g.attr == cur then groupRun cur (g :: acc) rest
      else (cur, acc.reverse) :: groupRun g.attr [g] rest

/-- Insert-or-replace into the `entityTypeSchemas` map. -/
def upsertTypeSchema (m : List (GoType × entityTypeSchema)) (t : GoType)
    (ts : entityTypeSchema) : List (GoType × entityTypeSchema) :=
  if (m.find? (fun p => p.1 == t)).isSome
  then m.map (fun p => if p.1 == t then (t, ts) else p)
  else m ++ [(t, ts)]

/-- `maybeAddTypeMapping` aggregates all attribute-field mappings of
one record type (which must be a pointer to a struct) into its
`entityTypeSchema`, with the field descriptors sorted and grouped by
attribute ordinal, and appends it with `typID` equal to its
registration index. -/
def maybeAddTypeMapping (sb : Schema) (t : GoType)
    (attributeMappings : List (Attr × List String)) : Except RelError Schema :=
  if ¬ (t.isPtrKind ∧ t.elem.isStructKind) then
    .error (.notStructPointer t)
  else do
    let (sb, fieldInfos) ← addAttrMappings sb t attributeMappings
    let fieldInfos := List.insertionSort attrLE fieldInfos
    let ts : entityTypeSchema :=
      { typ := t, fields := fieldInfos,
        attrFields := groupByAttr fieldInfos,
        typID := sb.entityTypes.length }
    .ok { sb with
          entityTypeSchemas := upsertTypeSchema sb.entityTypeSchemas t ts,
          entityTypes := sb.entityTypes ++ [ts] }

/-! ### The canonical sort of entity types and `buildSchema` -/

/-- The `less` half of `compareTypes`.  Modelled from the spec:
`compareTypes` is declared outside the sources under verification; the
spec orders types "by a primary key derived from the type's fully
qualified name, with a structural tiebreak if names collide", and
leaves the tiebreak open.  The model compares qualified names; the
theorems that need the order to separate types assume collision-free
names. -/
def typeLess (a b : GoType) : Bool := strLt a.sortName b.sortName

/-- The non-strict order a Go sort with `less = typeLess` establishes:
`a` may precede `b` exactly when `b` is not less than `a`. -/
def goTypeLE (a b : GoType) : Prop := typeLess b a = false

instance : DecidableRel goTypeLE := fun a b =>
  instDecidableEqBool (typeLess b a) false

theorem strLt_connex {a b : String} (h1 : strLt a b = false)
    (h2 : strLt b a = false) : a = b := by
  have h3 : a.data = b.data := charsLt_connex h1 h2
  obtain ⟨da⟩ := a
  obtain ⟨db⟩ := b
  simp only at h3
  rw [h3]

instance : IsTotal GoType goTypeLE :=
  ⟨fun a b => by
    by_cases h : typeLess a b = true
    · exact Or.inl (charsLt_asymm h)
    · exact Or.inr ((Bool.not_eq_true _).mp h)⟩

instance : IsTrans GoType goTypeLE :=
  ⟨fun a b c hab hbc => by
    by_cases h : typeLess c a = true
    · exfalso
      by_cases h2 : typeLess b c = true
      · have hba : typeLess b a = true := charsLt_trans h2 h
        rw [hab] at hba
        cases hba
      · have hdata : b.sortName.data = c.sortName.data :=
          charsLt_connex ((Bool.not_eq_true _).mp h2) hbc
        have hba : typeLess b a = true := by
          show charsLt b.sortName.data a.sortName.data = true
          rw [hdata]
          exact h
        rw [hab] at hba
        cases hba
    · exact (Bool.not_eq_true _).mp h⟩

/-- The ordering `sort.Sort` establishes over `entityTypes` through
`entityTypeSchemaSort.Less` (which is `compareTypes` on the `typ`
fields); as for any Go sort, the result is specified up to ties. -/
def entityLE (a b : entityTypeSchema) : Prop := goTypeLE a.typ b.typ

instance : DecidableRel entityLE := fun a b =>
  instDecidableEqBool (typeLess b.typ a.typ) false

instance : IsTotal entityTypeSchema entityLE :=
  ⟨fun a b => IsTotal.total (r := goTypeLE) a.typ b.typ⟩

instance : IsTrans entityTypeSchema entityLE :=
  ⟨fun a b c h h' => IsTrans.trans (r := goTypeLE) a.typ b.typ c.typ h h'⟩

/-- The rank reassignment performed by `entityTypeSchemaSort.Swap`:
every swap leaves the two slots it touches holding `typID = slot
index`, and the builder inserts entries with `typID = index`, so after
sorting each participating entry's `typID` is its position. -/
def assignRanks : Nat → List entityTypeSchema → List entityTypeSchema
  | _, [] => []
  | i, e :: rest => { e with typID := i } :: assignRanks (i + 1) rest

/-- The `sort.Sort((*entityTypeSchemaSort)(sb.Schema))` step of
`buildSchema`.  `Len` is the size of the `entityTypeSchemas` map, so
only that many leading entries of `entityTypes` take part in the sort;
the rest keep their place and their `typID`. -/
def sortEntityTypes (sc : Schema) : Schema :=
  let k := sc.entityTypeSchemas.length
  { sc with
    entityTypes :=
      assignRanks 0 (List.insertionSort entityLE (sc.entityTypes.take k)) ++
        sc.entityTypes.drop k }

/-- `emptyInterfaceType`: `interface{}`, the declared type of `Self`. -/
def emptyInterfaceType : GoType := GoType.anyIface

/-- `reflectTypeType`: `reflect.Type`, the declared type of `Type`. -/
def reflectTypeType : GoType := GoType.reflectType

/-- The accumulated schema mappings (`schemaMappings`): the attribute
type declarations and the per-record-type attribute mappings, in the
order the `SchemaOption`s supplied them. -/
structure schemaMappings where
  attrTypes : List (Attr × GoType)
  entityMappings : List (GoType × List (Attr × List String))

/-- The first loop of `buildSchema`: register every declared attribute
and its type. -/
def addAttrDecls (sb : Schema) : List (Attr × GoType) → Except RelError Schema
  | [] => .ok sb
  | (a, t) :: rest => do
      let (sb, _) ← maybeAddAttribute sb a t
      addAttrDecls sb rest

/-- The second loop of `buildSchema`: register every record-type
mapping. -/
def addEntityMappings (sb : Schema) :
    List (GoType × List (Attr × List String)) → Except RelError Schema
  | [] => .ok sb
  | (t, ams) :: rest => do
      let sb ← maybeAddTypeMapping sb t ams
      addEntityMappings sb rest

/-- `getOrdinal` resolves an attribute to its ordinal, failing on an
unknown attribute. -/
def getOrdinal (sc : Schema) (a : Attr) : Except RelError Nat :=
  match findOrd sc.attrToOrdinal a with
  | none => .error (.unknownAttribute a sc.name)
  | some ord => .ok ord

/-- `mustGetOrdinal`: `getOrdinal`, with the failure escalated to a
construction-aborting panic (an `Except.error` in the model). -/
def mustGetOrdinal (sc : Schema) (a : Attr) : Except RelError Nat :=
  getOrdinal sc a

/-- `buildSchema`: registers the declared attributes, then the record
type mappings, then the reserved attributes `Self` and `Type`, and
finally sorts the entity types into their canonical order.  Any panic
along the way is an `Except.error`. -/
def buildSchema (name : String) (m : schemaMappings) : Except RelError Schema := do
  let sb := emptySchema name
  let sb ← addAttrDecls sb m.attrTypes
  let sb ← addEntityMappings sb m.entityMappings
  let (sb, _) ← maybeAddAttribute sb Attr.self emptyInterfaceType
  let selfOrd ← mustGetOrdinal sb Attr.self
  let sb := { sb with selfOrdinal := selfOrd }
  let (sb, _) ← maybeAddAttribute sb Attr.typ reflectTypeType
  let typeOrd ← mustGetOrdinal sb Attr.typ
  let sb := { sb with typeOrdinal := typeOrd }
  .ok (sortEntityTypes sb)

/-- The wrapped error `NewSchema` returns: the recovered construction
panic wrapped as `failed to construct schema`. -/
structure SchemaError where
  msg : String
  cause : RelError
deriving DecidableEq

/-- `NewSchema` constructs a new schema from mappings.  The deferred
`recover` turns any construction panic into an error result, leaving
the named schema return at `nil`: the caller receives either a schema
or an error, never both and never a partial schema. -/
def NewSchema (name : String) (m : schemaMappings) :
    Option Schema × Option SchemaError :=
  match buildSchema name m with
  | .ok sc => (some sc, none)
  | .error e => (none, some { msg := "failed to construct schema", cause := e })

/-! ### Infrastructure: first-occurrence indices and the registry
invariant -/

/-- The index of the first occurrence of `a` in a list. -/
def firstIdx {α : Type} [DecidableEq α] (a : α) : List α → Option Nat
  | [] => none
  | b :: l => if b = a then some 0 else (firstIdx a l).map (· + 1)

theorem firstIdx_cons_self {α : Type} [DecidableEq α] (a : α) (l : List α) :
    firstIdx a (a :: l) = some 0 := by
  simp [firstIdx]

theorem firstIdx_cons_ne {α : Type} [DecidableEq α] {a b : α} (hb : b ≠ a)
    (l : List α) : firstIdx a (b :: l) = (firstIdx a l).map (· + 1) := by
  simp [firstIdx, hb]

theorem firstIdx_eq_none {α : Type} [DecidableEq α] (a : α) :
    ∀ l : List α, firstIdx a l = none ↔ a ∉ l := by
  intro l
  induction l with
  | nil => simp [firstIdx]
  | cons b l ih =>
      by_cases hb : b = a
      · subst hb
        simp [firstIdx_cons_self]
      · rw [firstIdx_cons_ne hb]
        simp [Option.map_eq_none', ih, Ne.symm hb]

theorem firstIdx_lt_length {α : Type} [DecidableEq α] {a : α} :
    ∀ {l : List α} {i : Nat}, firstIdx a l = some i → i < l.length := by
  intro l
  induction l with
  | nil => intro i h; simp [firstIdx] at h
  | cons b l ih =>
      intro i h
      by_cases hb : b = a
      · subst hb
        rw [firstIdx_cons_self] at h
        cases h
        simp
      · rw [firstIdx_cons_ne hb, Option.map_eq_some'] at h
        obtain ⟨j, hj, rfl⟩ := h
        have := ih hj
        simp only [List.length_cons]
        omega

theorem firstIdx_getElem {α : Type} [DecidableEq α] {a : α} :
    ∀ {l : List α} {i : Nat}, firstIdx a l = some i → l[i]? = some a := by
  intro l
  induction l with
  | nil => intro i h; simp [firstIdx] at h
  | cons b l ih =>
      intro i h
      by_cases hb : b = a
      · subst hb
        rw [firstIdx_cons_self] at h
        cases h
        simp
      · rw [firstIdx_cons_ne hb, Option.map_eq_some'] at h
        obtain ⟨j, hj, rfl⟩ := h
        simpa using ih hj

theorem firstIdx_of_nodup {α : Type} [DecidableEq α] {a : α} :
    ∀ {l : List α} {i : Nat}, l.Nodup → l[i]? = some a → firstIdx a l = some i := by
  intro l
  induction l with
  | nil => intro i _ h; simp at h
  | cons b l ih =>
      intro i hnd h
      match i with
      | 0 =>
          simp only [List.getElem?_cons_zero, Option.some_inj] at h
          subst h
          exact firstIdx_cons_self b l
      | i + 1 =>
          simp only [List.getElem?_cons_succ] at h
          have hmem : a ∈ l := by
            rcases List.getElem?_eq_some.mp h with ⟨hlt, hget⟩
            exact hget ▸ List.getElem_mem hlt
          have hb : b ≠ a := by
            intro hba
            subst hba
            exact (List.nodup_cons.mp hnd).1 hmem
          rw [firstIdx_cons_ne hb, ih (List.nodup_cons.mp hnd).2 h]
          rfl

theorem firstIdx_append_left {α : Type} [DecidableEq α] {a : α} {l : List α}
    {i : Nat} (h : firstIdx a l = some i) (l' : List α) :
    firstIdx a (l ++ l') = some i := by
  induction l generalizing i with
  | nil => simp [firstIdx] at h
  | cons b l ih =>
      by_cases hb : b = a
      · subst hb
        rw [firstIdx_cons_self] at h
        cases h
        exact firstIdx_cons_self b (l ++ l')
      · rw [firstIdx_cons_ne hb, Option.map_eq_some'] at h
        obtain ⟨j, hj, rfl⟩ := h
        rw [List.cons_append, firstIdx_cons_ne hb, ih hj]
        rfl

theorem firstIdx_append_right {α : Type} [DecidableEq α] {a : α} {l : List α}
    (h : a ∉ l) (l' : List α) :
    firstIdx a (l ++ l') = (firstIdx a l').map (· + l.length) := by
  induction l with
  | nil => simp
  | cons b l ih =>
      have hb : b ≠ a := fun hba => h (hba ▸ List.mem_cons_self b l)
      have h' : a ∉ l := fun hm => h (List.mem_cons_of_mem b hm)
      rw [List.cons_append, firstIdx_cons_ne hb, ih h']
      cases firstIdx a l' with
      | none => rfl
      | some j =>
          simp only [Option.map_some', List.length_cons, Option.some_inj]
          omega

/-- `findOrd` over the map the builder maintains. -/
theorem findOrd_append (m m' : List (Attr × Nat)) (a : Attr) :
    findOrd (m ++ m') a = (findOrd m a).or (findOrd m' a) := by
  simp only [findOrd, List.find?_append]
  cases List.find? (fun p => p.1 == a) m <;> simp

theorem findOrd_singleton (b : Attr) (o : Nat) (a : Attr) :
    findOrd [(b, o)] a = if b = a then some o else none := by
  by_cases h : b = a <;> simp [findOrd, List.find?_cons, beq_iff_eq, h]

/-- The registry invariant the builder maintains: the ordinal map sends
every attribute to the index of its first (and only) occurrence in
`attrs`, the types table is parallel to `attrs`, and registered
attributes are distinct. -/
structure RegInv (sb : Schema) : Prop where
  ord_eq : ∀ a, findOrd sb.attrToOrdinal a = firstIdx a sb.attrs
  len_eq : sb.attrTypes.length = sb.attrs.length
  nodup : sb.attrs.Nodup

theorem regInv_empty (name : String) : RegInv (emptySchema name) :=
  ⟨fun a => by simp [emptySchema, findOrd, firstIdx], rfl, List.nodup_nil⟩

/-- `maybeAddAttribute` on a fresh attribute: appended at ordinal
`attrs.length` (or attribute-space exhaustion). -/
theorem maybeAddAttribute_fresh {sb : Schema} {a : Attr} {typ : GoType}
    (h : findOrd sb.attrToOrdinal a = none) :
    maybeAddAttribute sb a typ =
      if maxUserAttribute ≤ sb.attrs.length then .error RelError.tooManyAttributes
      else .ok ({ sb with
          attrs := sb.attrs ++ [a],
          attrTypes := sb.attrTypes ++ [typ],
          attrToOrdinal := sb.attrToOrdinal ++ [(a, sb.attrs.length)] },
        sb.attrs.length) := by
  simp [maybeAddAttribute, h]

/-- `maybeAddAttribute` on an existing attribute: the schema is
unchanged and the original ordinal is returned, if the new type passes
`checkType` against the fixed one; otherwise the type-mismatch error
naming the attribute and both types is raised. -/
theorem maybeAddAttribute_existing {sb : Schema} {a : Attr} {typ : GoType}
    {ord : Nat} (h : findOrd sb.attrToOrdinal a = some ord) :
    maybeAddAttribute sb a typ =
      if checkType typ (sb.attrTypes.getD ord GoType.str)
      then .ok (sb, ord)
      else .error (RelError.typeMismatch a typ (sb.attrTypes.getD ord GoType.str)) := by
  simp only [maybeAddAttribute, h]

/-- `maybeAddAttribute` preserves the registry invariant, and its
output schema extends the input's attribute list by at most the new
attribute. -/
theorem maybeAddAttribute_inv {sb : Schema} {a : Attr} {typ : GoType}
    {sb' : Schema} {ord : Nat} (hinv : RegInv sb)
    (h : maybeAddAttribute sb a typ = .ok (sb', ord)) :
    RegInv sb' ∧
      (sb'.attrs = sb.attrs ∨ sb'.attrs = sb.attrs ++ [a]) ∧
      sb'.entityTypes = sb.entityTypes ∧
      sb'.entityTypeSchemas = sb.entityTypeSchemas ∧
      findOrd sb'.attrToOrdinal a = some ord := by
  cases hfind : findOrd sb.attrToOrdinal a with
  | some o =>
      rw [maybeAddAttribute_existing hfind] at h
      by_cases hchk : checkType typ (sb.attrTypes.getD o GoType.str) = true
      · rw [if_pos hchk] at h
        cases h
        exact ⟨hinv, Or.inl rfl, rfl, rfl, hfind⟩
      · rw [if_neg hchk] at h
        cases h
  | none =>
      rw [maybeAddAttribute_fresh hfind] at h
      by_cases hmax : maxUserAttribute ≤ sb.attrs.length
      · rw [if_pos hmax] at h
        cases h
      · rw [if_neg hmax] at h
        cases h
        have hnotmem : a ∉ sb.attrs := by
          rw [← firstIdx_eq_none a sb.attrs, ← hinv.ord_eq]
          exact hfind
        refine ⟨⟨?_, ?_, ?_⟩, Or.inr rfl, rfl, rfl, ?_⟩
        · intro b
          simp only [findOrd_append, hinv.ord_eq]
          by_cases hab : a = b
          · subst hab
            rw [(firstIdx_eq_none a sb.attrs).mpr hnotmem,
              firstIdx_append_right hnotmem]
            simp [firstIdx, findOrd_singleton]
          · cases hfb : firstIdx b sb.attrs with
            | some j =>
                rw [firstIdx_append_left hfb]
                simp
            | none =>
                have hbnot : b ∉ sb.attrs := (firstIdx_eq_none b sb.attrs).mp hfb
                rw [firstIdx_append_right hbnot]
                simp [firstIdx, findOrd_singleton, hab]
        · simp [hinv.len_eq]
        · simp [List.nodup_append, hinv.nodup, hnotmem]
        · rw [findOrd_append, hinv.ord_eq,
            (firstIdx_eq_none a sb.attrs).mpr hnotmem, findOrd_singleton]
          simp

/-! ### The invariants the builder maintains -/

theorem ebind_ok {α β : Type} (a : α) (f : α → Except RelError β) :
    (Except.ok a : Except RelError α) >>= f = f a := rfl

theorem ebind_err {α β : Type} (e : RelError) (f : α → Except RelError β) :
    (Except.error e : Except RelError α) >>= f = Except.error e := rfl

/-- The whole-builder invariant: the registry invariant, every entity
type entry holding its own index as `typID`, and the type-schema map
being no larger than the entity type list. -/
structure BuildInv (sb : Schema) : Prop where
  reg : RegInv sb
  typID_eq : ∀ (i : Nat) (h : i < sb.entityTypes.length), sb.entityTypes[i].typID = i
  maps_le : sb.entityTypeSchemas.length ≤ sb.entityTypes.length

theorem buildInv_empty (name : String) : BuildInv (emptySchema name) :=
  ⟨regInv_empty name, fun i h => by simp [emptySchema] at h, by simp [emptySchema]⟩

/-- What one selector registration does to the builder state: the
registry invariant is preserved, at most the attribute `a` is appended
to the registry, and the entity type tables are untouched. -/
theorem addTypeAttrMapping_ok {sb : Schema} {a : Attr} {t : GoType} {sel : String}
    {sb' : Schema} {fi : fieldInfo} (hinv : RegInv sb)
    (h : addTypeAttrMapping sb a t sel = .ok (sb', fi)) :
    RegInv sb' ∧ (sb'.attrs = sb.attrs ∨ sb'.attrs = sb.attrs ++ [a]) ∧
      sb'.entityTypes = sb.entityTypes ∧
      sb'.entityTypeSchemas = sb.entityTypeSchemas := by
  unfold addTypeAttrMapping at h
  cases h1 : getOffsetAndTypeFromSelector t sel with
  | error e => rw [h1, ebind_err] at h; cases h
  | ok oc =>
      rw [h1, ebind_ok] at h
      obtain ⟨off, cur⟩ := oc
      cases h2 : makeFieldFlags cur with
      | none => simp only [h2] at h; cases h
      | some flags =>
          simp only [h2] at h
          cases h3 : maybeAddAttribute sb a
              (if flags.isPtr && flags.isScalar then cur.elem else cur) with
          | error e => rw [h3, ebind_err] at h; cases h
          | ok so =>
              obtain ⟨sb2, ord⟩ := so
              rw [h3, ebind_ok] at h
              cases h
              obtain ⟨hreg, hattrs, het, hets, _⟩ := maybeAddAttribute_inv hinv h3
              exact ⟨hreg, hattrs, het, hets⟩

/-- `addSelectors` only grows the registry (with copies of `a`) and
leaves the entity type tables untouched. -/
theorem addSelectors_ok {a : Attr} {t : GoType} :
    ∀ {sels : List String} {sb sb' : Schema} {fis : List fieldInfo},
      RegInv sb → addSelectors sb a t sels = .ok (sb', fis) →
      RegInv sb' ∧ (∃ l, sb'.attrs = sb.attrs ++ l ∧ ∀ b ∈ l, b = a) ∧
        sb'.entityTypes = sb.entityTypes ∧
        sb'.entityTypeSchemas = sb.entityTypeSchemas := by
  intro sels
  induction sels with
  | nil =>
      intro sb sb' fis hinv h
      cases h
      exact ⟨hinv, ⟨[], by simp, by simp⟩, rfl, rfl⟩
  | cons sel rest ih =>
      intro sb sb' fis hinv h
      unfold addSelectors at h
      cases h1 : addTypeAttrMapping sb a t sel with
      | error e => simp only [h1, ebind_err] at h; cases h
      | ok p =>
          obtain ⟨sb1, fi⟩ := p
          simp only [h1, ebind_ok] at h
          obtain ⟨hreg1, hattrs1, het1, hets1⟩ := addTypeAttrMapping_ok hinv h1
          cases h2 : addSelectors sb1 a t rest with
          | error e => simp only [h2, ebind_err] at h; cases h
          | ok p2 =>
              obtain ⟨sb2, fis2⟩ := p2
              simp only [h2, ebind_ok] at h
              cases h
              obtain ⟨hreg2, ⟨l2, hl2, hmem2⟩, het2, hets2⟩ := ih hreg1 h2
              refine ⟨hreg2, ?_, het2.trans het1, hets2.trans hets1⟩
              rcases hattrs1 with h1a | h1a
              · exact ⟨l2, by rw [hl2, h1a], hmem2⟩
              · refine ⟨a :: l2, by rw [hl2, h1a]; simp, ?_⟩
                intro b hb
                rcases List.mem_cons.mp hb with rfl | hb
                · rfl
                · exact hmem2 b hb

/-- `addAttrMappings` only grows the registry with attributes named in
the supplied mappings, leaving the entity type tables untouched. -/
theorem addAttrMappings_ok {t : GoType} :
    ∀ {ams : List (Attr × List String)} {sb sb' : Schema} {fis : List fieldInfo},
      RegInv sb → addAttrMappings sb t ams = .ok (sb', fis) →
      RegInv sb' ∧
        (∃ l, sb'.attrs = sb.attrs ++ l ∧ ∀ b ∈ l, b ∈ ams.map Prod.fst) ∧
        sb'.entityTypes = sb.entityTypes ∧
        sb'.entityTypeSchemas = sb.entityTypeSchemas := by
  intro ams
  induction ams with
  | nil =>
      intro sb sb' fis hinv h
      cases h
      exact ⟨hinv, ⟨[], by simp, by simp⟩, rfl, rfl⟩
  | cons am rest ih =>
      intro sb sb' fis hinv h
      obtain ⟨a, sels⟩ := am
      unfold addAttrMappings at h
      cases h1 : addSelectors sb a t sels with
      | error e => simp only [h1, ebind_err] at h; cases h
      | ok p =>
          obtain ⟨sb1, fis1⟩ := p
          simp only [h1, ebind_ok] at h
          obtain ⟨hreg1, ⟨l1, hl1, hmem1⟩, het1, hets1⟩ := addSelectors_ok hinv h1
          cases h2 : addAttrMappings sb1 t rest with
          | error e => simp only [h2, ebind_err] at h; cases h
          | ok p2 =>
              obtain ⟨sb2, fis2⟩ := p2
              simp only [h2, ebind_ok] at h
              cases h
              obtain ⟨hreg2, ⟨l2, hl2, hmem2⟩, het2, hets2⟩ := ih hreg1 h2
              refine ⟨hreg2, ⟨l1 ++ l2, by rw [hl2, hl1, List.append_assoc], ?_⟩,
                het2.trans het1, hets2.trans hets1⟩
              intro b hb
              rcases List.mem_append.mp hb with hb | hb
              · simp only [List.map_cons]
                exact List.mem_cons.mpr (Or.inl (hmem1 b hb))
              · simp only [List.map_cons]
                exact List.mem_cons.mpr (Or.inr (hmem2 b hb))

theorem upsertTypeSchema_length (m : List (GoType × entityTypeSchema))
    (t : GoType) (ts : entityTypeSchema) :
    (upsertTypeSchema m t ts).length = m.length ∨
      (upsertTypeSchema m t ts).length = m.length + 1 := by
  unfold upsertTypeSchema
  by_cases hf : (m.find? (fun p => p.1 == t)).isSome
  · rw [if_pos hf]; exact Or.inl (List.length_map m _)
  · rw [if_neg hf]; right; simp

/-- What one record-type registration does to the builder state:
the whole-builder invariant is preserved, the registry grows only with
attributes named in the mapping, and the entity type list is extended
by exactly one entry for `t`, carrying its registration index as
`typID`. -/
theorem maybeAddTypeMapping_ok {sb : Schema} {t : GoType}
    {ams : List (Attr × List String)} {sb' : Schema} (hinv : BuildInv sb)
    (h : maybeAddTypeMapping sb t ams = .ok sb') :
    BuildInv sb' ∧
      (∃ l, sb'.attrs = sb.attrs ++ l ∧ ∀ b ∈ l, b ∈ ams.map Prod.fst) ∧
      (∃ ts : entityTypeSchema, sb'.entityTypes = sb.entityTypes ++ [ts] ∧
        ts.typ = t ∧ ts.typID = sb.entityTypes.length) := by
  unfold maybeAddTypeMapping at h
  by_cases hsp : ¬ (t.isPtrKind = true ∧ t.elem.isStructKind = true)
  · rw [if_pos hsp] at h; cases h
  · rw [if_neg hsp] at h
    cases h1 : addAttrMappings sb t ams with
    | error e => simp only [h1, ebind_err] at h; cases h
    | ok p =>
        obtain ⟨sb1, fis⟩ := p
        simp only [h1, ebind_ok] at h
        obtain ⟨hreg1, ⟨l1, hl1, hmem1⟩, het1, hets1⟩ :=
          addAttrMappings_ok hinv.reg h1
        cases h
        refine ⟨⟨⟨hreg1.ord_eq, hreg1.len_eq, hreg1.nodup⟩, ?_, ?_⟩,
          ⟨l1, hl1, hmem1⟩, ?_⟩
        · have htyp1 : ∀ (i : Nat) (hh : i < sb1.entityTypes.length),
              sb1.entityTypes[i].typID = i := by
            rw [het1]
            exact hinv.typID_eq
          intro i hlen
          dsimp only at hlen ⊢
          simp only [List.length_append, List.length_cons,
            List.length_nil] at hlen
          by_cases hi : i < sb1.entityTypes.length
          · rw [List.getElem_append_left hi]
            exact htyp1 i hi
          · have hi' : i = sb1.entityTypes.length := by omega
            subst hi'
            rw [List.getElem_append_right (Nat.le_refl _)]
            simp
        · dsimp only
          rcases upsertTypeSchema_length sb1.entityTypeSchemas t
              { typ := t, fields := List.insertionSort attrLE fis,
                attrFields := groupByAttr (List.insertionSort attrLE fis),
                typID := sb1.entityTypes.length } with hu | hu
          all_goals rw [hu, hets1, het1]
          all_goals simp only [List.length_append, List.length_cons,
            List.length_nil]
          · have := hinv.maps_le
            omega
          · have := hinv.maps_le
            omega
        · refine ⟨({ typ := t,
                     fields := List.insertionSort attrLE fis,
                     attrFields := groupByAttr (List.insertionSort attrLE fis),
                     typID := sb1.entityTypes.length } : entityTypeSchema),
            ?_, rfl, ?_⟩
          · dsimp only
            rw [het1]
          · dsimp only
            rw [het1]


/-- `maybeAddAttribute` never disturbs an existing binding. -/
theorem maybeAddAttribute_preserves_findOrd {sb : Schema} {a : Attr}
    {typ : GoType} {sb' : Schema} {ord : Nat} {b : Attr} {o : Nat}
    (h : maybeAddAttribute sb a typ = .ok (sb', ord))
    (hb : findOrd sb.attrToOrdinal b = some o) :
    findOrd sb'.attrToOrdinal b = some o := by
  cases hfind : findOrd sb.attrToOrdinal a with
  | some o2 =>
      rw [maybeAddAttribute_existing hfind] at h
      by_cases hchk : checkType typ (sb.attrTypes.getD o2 GoType.str) = true
      · rw [if_pos hchk] at h
        cases h
        exact hb
      · rw [if_neg hchk] at h
        cases h
  | none =>
      rw [maybeAddAttribute_fresh hfind] at h
      by_cases hmax : maxUserAttribute ≤ sb.attrs.length
      · rw [if_pos hmax] at h
        cases h
      · rw [if_neg hmax] at h
        cases h
        dsimp only
        rw [findOrd_append, hb]
        rfl

/-- `addAttrDecls` only grows the registry, with attributes drawn from
the declarations, and leaves the entity type tables untouched. -/
theorem addAttrDecls_ok :
    ∀ {ds : List (Attr × GoType)} {sb sb' : Schema},
      RegInv sb → addAttrDecls sb ds = .ok sb' →
      RegInv sb' ∧
        (∃ l, sb'.attrs = sb.attrs ++ l ∧ ∀ b ∈ l, b ∈ ds.map Prod.fst) ∧
        sb'.entityTypes = sb.entityTypes ∧
        sb'.entityTypeSchemas = sb.entityTypeSchemas := by
  intro ds
  induction ds with
  | nil =>
      intro sb sb' hinv h
      cases h
      exact ⟨hinv, ⟨[], by simp, by simp⟩, rfl, rfl⟩
  | cons d rest ih =>
      intro sb sb' hinv h
      obtain ⟨a, ty⟩ := d
      unfold addAttrDecls at h
      cases h1 : maybeAddAttribute sb a ty with
      | error e => simp only [h1, ebind_err] at h; cases h
      | ok p =>
          obtain ⟨sb1, ord⟩ := p
          simp only [h1, ebind_ok] at h
          obtain ⟨hreg1, hattrs1, het1, hets1, _⟩ := maybeAddAttribute_inv hinv h1
          obtain ⟨hreg2, ⟨l2, hl2, hmem2⟩, het2, hets2⟩ := ih hreg1 h
          refine ⟨hreg2, ?_, het2.trans het1, hets2.trans hets1⟩
          rcases hattrs1 with h1a | h1a
          · exact ⟨l2, by rw [hl2, h1a], fun b hb => by
              simp only [List.map_cons]
              exact List.mem_cons.mpr (Or.inr (hmem2 b hb))⟩
          · refine ⟨a :: l2, by rw [hl2, h1a]; simp, ?_⟩
            intro b hb
            rcases List.mem_cons.mp hb with rfl | hb
            · simp
            · simp only [List.map_cons]
              exact List.mem_cons.mpr (Or.inr (hmem2 b hb))

/-- `addEntityMappings` preserves the whole-builder invariant, grows
the registry only with attributes named in the mappings, and appends
one entity type entry per mapping, in order. -/
theorem addEntityMappings_ok :
    ∀ {ems : List (GoType × List (Attr × List String))} {sb sb' : Schema},
      BuildInv sb → addEntityMappings sb ems = .ok sb' →
      BuildInv sb' ∧
        (∃ l, sb'.attrs = sb.attrs ++ l ∧
          ∀ b ∈ l, b ∈ (ems.map (fun em => em.2.map Prod.fst)).flatten) ∧
        (∃ new, sb'.entityTypes = sb.entityTypes ++ new ∧
          new.map entityTypeSchema.typ = ems.map Prod.fst) := by
  intro ems
  induction ems with
  | nil =>
      intro sb sb' hinv h
      cases h
      exact ⟨hinv, ⟨[], by simp, by simp⟩, ⟨[], by simp, by simp⟩⟩
  | cons em rest ih =>
      intro sb sb' hinv h
      obtain ⟨t, ams⟩ := em
      unfold addEntityMappings at h
      cases h1 : maybeAddTypeMapping sb t ams with
      | error e => simp only [h1, ebind_err] at h; cases h
      | ok sb1 =>
          simp only [h1, ebind_ok] at h
          obtain ⟨hinv1, ⟨l1, hl1, hmem1⟩, ⟨ts1, hts1, htyp1, _⟩⟩ :=
            maybeAddTypeMapping_ok hinv h1
          obtain ⟨hinv2, ⟨l2, hl2, hmem2⟩, ⟨new2, hnew2, hmap2⟩⟩ := ih hinv1 h
          refine ⟨hinv2, ?_, ?_⟩
          · refine ⟨l1 ++ l2, by rw [hl2, hl1, List.append_assoc], ?_⟩
            intro b hb
            simp only [List.map_cons, List.flatten_cons, List.mem_append]
            rcases List.mem_append.mp hb with hb | hb
            · exact Or.inl (hmem1 b hb)
            · exact Or.inr (hmem2 b hb)
          · refine ⟨ts1 :: new2, ?_, ?_⟩
            · rw [hnew2, hts1]
              simp
            · simp [hmap2, htyp1]


/-! ### The canonical sort step and the phases of a successful build -/

theorem assignRanks_length :
    ∀ (l : List entityTypeSchema) (i : Nat), (assignRanks i l).length = l.length
  | [], _ => rfl
  | e :: rest, i => by
      simp [assignRanks, assignRanks_length rest (i + 1)]

theorem assignRanks_typID :
    ∀ (l : List entityTypeSchema) (i j : Nat)
      (h : j < (assignRanks i l).length), (assignRanks i l)[j].typID = i + j := by
  intro l
  induction l with
  | nil => intro i j h; simp [assignRanks] at h
  | cons e rest ih =>
      intro i j h
      match j with
      | 0 => simp [assignRanks]
      | j + 1 =>
          have hj : j < (assignRanks (i + 1) rest).length := by
            simp only [assignRanks, List.length_cons] at h
            omega
          simp only [assignRanks, List.getElem_cons_succ]
          rw [ih (i + 1) j hj]
          omega

theorem sortEntityTypes_entityTypes (sc : Schema) :
    (sortEntityTypes sc).entityTypes =
      assignRanks 0 (List.insertionSort entityLE
          (sc.entityTypes.take sc.entityTypeSchemas.length)) ++
        sc.entityTypes.drop sc.entityTypeSchemas.length := rfl

theorem sortEntityTypes_attrs (sc : Schema) :
    (sortEntityTypes sc).attrs = sc.attrs := rfl

theorem sortEntityTypes_attrTypes (sc : Schema) :
    (sortEntityTypes sc).attrTypes = sc.attrTypes := rfl

theorem sortEntityTypes_attrToOrdinal (sc : Schema) :
    (sortEntityTypes sc).attrToOrdinal = sc.attrToOrdinal := rfl

theorem sortEntityTypes_selfOrdinal (sc : Schema) :
    (sortEntityTypes sc).selfOrdinal = sc.selfOrdinal := rfl

theorem sortEntityTypes_typeOrdinal (sc : Schema) :
    (sortEntityTypes sc).typeOrdinal = sc.typeOrdinal := rfl

/-- After the canonical sort, every entity type entry holds its
position as its `typID`: the sorted leading entries through the rank
reassignment, the untouched trailing entries because they had it
already. -/
theorem sortEntityTypes_typID {sc : Schema}
    (hk : sc.entityTypeSchemas.length ≤ sc.entityTypes.length)
    (hinv : ∀ (i : Nat) (h : i < sc.entityTypes.length),
      sc.entityTypes[i].typID = i) :
    ∀ (i : Nat) (h : i < (sortEntityTypes sc).entityTypes.length),
      (sortEntityTypes sc).entityTypes[i].typID = i := by
  intro i h
  have h9 : i < (assignRanks 0 (List.insertionSort entityLE
      (sc.entityTypes.take sc.entityTypeSchemas.length)) ++
      sc.entityTypes.drop sc.entityTypeSchemas.length).length := h
  show (assignRanks 0 (List.insertionSort entityLE
      (sc.entityTypes.take sc.entityTypeSchemas.length)) ++
      sc.entityTypes.drop sc.entityTypeSchemas.length)[i].typID = i
  have hplen : (assignRanks 0 (List.insertionSort entityLE
      (sc.entityTypes.take sc.entityTypeSchemas.length))).length =
      sc.entityTypeSchemas.length := by
    rw [assignRanks_length, List.length_insertionSort, List.length_take]
    omega
  by_cases hik : i < sc.entityTypeSchemas.length
  · have hi1 : i < (assignRanks 0 (List.insertionSort entityLE
        (sc.entityTypes.take sc.entityTypeSchemas.length))).length := by
      omega
    rw [List.getElem_append_left hi1, assignRanks_typID _ 0 i hi1]
    omega
  · have hge : (assignRanks 0 (List.insertionSort entityLE
        (sc.entityTypes.take sc.entityTypeSchemas.length))).length ≤ i := by
      omega
    rw [List.getElem_append_right hge]
    have hlt : sc.entityTypeSchemas.length +
        (i - (assignRanks 0 (List.insertionSort entityLE
          (sc.entityTypes.take sc.entityTypeSchemas.length))).length) <
        sc.entityTypes.length := by
      simp only [List.length_append] at h9
      rw [List.length_drop] at h9
      omega
    rw [List.getElem_drop]
    rw [hinv _ hlt]
    omega

/-- The attribute tokens a configuration names anywhere. -/
def mappingAttrs (m : schemaMappings) : List Attr :=
  m.attrTypes.map Prod.fst ++
    (m.entityMappings.map (fun em => em.2.map Prod.fst)).flatten

/-- The ordinal `maybeAddAttribute` returns is the one the resulting
registry resolves `a` to. -/
theorem maybeAddAttribute_findOrd {sb : Schema} {a : Attr} {typ : GoType}
    {sb' : Schema} {ord : Nat}
    (h : maybeAddAttribute sb a typ = .ok (sb', ord)) :
    findOrd sb'.attrToOrdinal a = some ord := by
  cases hfind : findOrd sb.attrToOrdinal a with
  | some o =>
      rw [maybeAddAttribute_existing hfind] at h
      by_cases hchk : checkType typ (sb.attrTypes.getD o GoType.str) = true
      · rw [if_pos hchk] at h
        cases h
        exact hfind
      · rw [if_neg hchk] at h
        cases h
  | none =>
      rw [maybeAddAttribute_fresh hfind] at h
      by_cases hmax : maxUserAttribute ≤ sb.attrs.length
      · rw [if_pos hmax] at h
        cases h
      · rw [if_neg hmax] at h
        cases h
        dsimp only
        rw [findOrd_append, hfind, findOrd_singleton]
        simp

/-- A successful `buildSchema` run decomposes into its phases: the
attribute declarations, the entity type mappings, the two reserved
attribute registrations, and the final canonical sort. -/
theorem buildSchema_ok_phases {name : String} {m : schemaMappings} {sc : Schema}
    (h : buildSchema name m = .ok sc) :
    ∃ (sb1 sb2 sb3 sb5 : Schema) (o3 o5 : Nat),
      addAttrDecls (emptySchema name) m.attrTypes = .ok sb1 ∧
      addEntityMappings sb1 m.entityMappings = .ok sb2 ∧
      maybeAddAttribute sb2 Attr.self emptyInterfaceType = .ok (sb3, o3) ∧
      maybeAddAttribute { sb3 with selfOrdinal := o3 } Attr.typ reflectTypeType =
        .ok (sb5, o5) ∧
      sc = sortEntityTypes { sb5 with typeOrdinal := o5 } ∧
      findOrd sb3.attrToOrdinal Attr.self = some o3 ∧
      findOrd sb5.attrToOrdinal Attr.typ = some o5 := by
  unfold buildSchema at h
  cases h1 : addAttrDecls (emptySchema name) m.attrTypes with
  | error e => simp only [h1, ebind_err] at h; cases h
  | ok sb1 =>
      simp only [h1, ebind_ok] at h
      cases h2 : addEntityMappings sb1 m.entityMappings with
      | error e => simp only [h2, ebind_err] at h; cases h
      | ok sb2 =>
          simp only [h2, ebind_ok] at h
          cases h3 : maybeAddAttribute sb2 Attr.self emptyInterfaceType with
          | error e => simp only [h3, ebind_err] at h; cases h
          | ok p3 =>
              obtain ⟨sb3, o3⟩ := p3
              simp only [h3, ebind_ok] at h
              cases h4 : mustGetOrdinal sb3 Attr.self with
              | error e => simp only [h4, ebind_err] at h; cases h
              | ok so =>
                  simp only [h4, ebind_ok] at h
                  cases h5 : maybeAddAttribute { sb3 with selfOrdinal := so }
                      Attr.typ reflectTypeType with
                  | error e => simp only [h5, ebind_err] at h; cases h
                  | ok p5 =>
                      obtain ⟨sb5, o5⟩ := p5
                      simp only [h5, ebind_ok] at h
                      cases h6 : mustGetOrdinal sb5 Attr.typ with
                      | error e => simp only [h6, ebind_err] at h; cases h
                      | ok tord =>
                          simp only [h6, ebind_ok] at h
                          cases h
                          have hfo3 : findOrd sb3.attrToOrdinal Attr.self = some o3 :=
                            maybeAddAttribute_findOrd h3
                          have hso : so = o3 := by
                            unfold mustGetOrdinal getOrdinal at h4
                            rw [hfo3] at h4
                            cases h4
                            rfl
                          have hfo5 : findOrd sb5.attrToOrdinal Attr.typ = some o5 :=
                            maybeAddAttribute_findOrd h5
                          have hto : tord = o5 := by
                            unfold mustGetOrdinal getOrdinal at h6
                            rw [hfo5] at h6
                            cases h6
                            rfl
                          refine ⟨sb1, sb2, sb3, sb5, so, tord, ?_, ?_, ?_, ?_,
                            rfl, ?_, ?_⟩
                          · rfl
                          · exact h2
                          · rw [hso]
                            exact h3
                          · rw [hto]
                            exact h5
                          · rw [hso]
                            exact hfo3
                          · rw [hto]
                            exact hfo5


/-- `maybeAddAttribute` leaves the non-registry fields alone. -/
theorem maybeAddAttribute_preserves_rest {sb : Schema} {a : Attr}
    {typ : GoType} {sb' : Schema} {ord : Nat}
    (h : maybeAddAttribute sb a typ = .ok (sb', ord)) :
    sb'.selfOrdinal = sb.selfOrdinal ∧ sb'.typeOrdinal = sb.typeOrdinal ∧
      sb'.name = sb.name := by
  cases hfind : findOrd sb.attrToOrdinal a with
  | some o =>
      rw [maybeAddAttribute_existing hfind] at h
      by_cases hchk : checkType typ (sb.attrTypes.getD o GoType.str) = true
      · rw [if_pos hchk] at h
        cases h
        exact ⟨rfl, rfl, rfl⟩
      · rw [if_neg hchk] at h
        cases h
  | none =>
      rw [maybeAddAttribute_fresh hfind] at h
      by_cases hmax : maxUserAttribute ≤ sb.attrs.length
      · rw [if_pos hmax] at h
        cases h
      · rw [if_neg hmax] at h
        cases h
        exact ⟨rfl, rfl, rfl⟩

/-- Full validity of a built schema: dense duplicate-free ordinals
assigned in registration order, a parallel declared-type table,
resolvable reserved attributes whose ordinals the schema caches, and
contiguous type ranks. -/
structure ValidSchema (sc : Schema) : Prop where
  ord_eq : ∀ a, findOrd sc.attrToOrdinal a = firstIdx a sc.attrs
  len_eq : sc.attrTypes.length = sc.attrs.length
  nodup : sc.attrs.Nodup
  self_ord : findOrd sc.attrToOrdinal Attr.self = some sc.selfOrdinal
  typ_ord : findOrd sc.attrToOrdinal Attr.typ = some sc.typeOrdinal
  typID_eq : ∀ (i : Nat) (h : i < sc.entityTypes.length),
    sc.entityTypes[i].typID = i

/-- Every schema `buildSchema` returns is valid. -/
theorem buildSchema_ok_valid {name : String} {m : schemaMappings} {sc : Schema}
    (h : buildSchema name m = .ok sc) : ValidSchema sc := by
  obtain ⟨sb1, sb2, sb3, sb5, o3, o5, h1, h2, h3, h5, hsc, hfo3, hfo5⟩ :=
    buildSchema_ok_phases h
  obtain ⟨hreg1, -, het1, hets1⟩ := addAttrDecls_ok (regInv_empty name) h1
  have hbinv1 : BuildInv sb1 := by
    refine ⟨hreg1, ?_, ?_⟩
    · rw [het1]
      intro i hh
      simp [emptySchema] at hh
    · rw [hets1, het1]
      simp [emptySchema]
  obtain ⟨hbinv2, -, -⟩ := addEntityMappings_ok hbinv1 h2
  obtain ⟨hreg3, -, het3, hets3, -⟩ := maybeAddAttribute_inv hbinv2.reg h3
  have hreg4 : RegInv { sb3 with selfOrdinal := o3 } :=
    ⟨hreg3.ord_eq, hreg3.len_eq, hreg3.nodup⟩
  obtain ⟨hreg5, -, het5, hets5, -⟩ := maybeAddAttribute_inv hreg4 h5
  have hfo3five : findOrd sb5.attrToOrdinal Attr.self = some o3 :=
    maybeAddAttribute_preserves_findOrd h5 hfo3
  have hk : sb5.entityTypeSchemas.length ≤ sb5.entityTypes.length := by
    rw [hets5, het5]
    dsimp only
    rw [hets3, het3]
    exact hbinv2.maps_le
  have hinv5 : ∀ (i : Nat) (hh : i < sb5.entityTypes.length),
      sb5.entityTypes[i].typID = i := by
    rw [het5]
    dsimp only
    rw [het3]
    exact hbinv2.typID_eq
  subst hsc
  refine ⟨fun a => hreg5.ord_eq a, hreg5.len_eq, hreg5.nodup, ?_, hfo5, ?_⟩
  · show findOrd sb5.attrToOrdinal Attr.self = some sb5.selfOrdinal
    rw [(maybeAddAttribute_preserves_rest h5).1]
    exact hfo3five
  · exact sortEntityTypes_typID hk hinv5


/-! ### Determinism of the canonical order -/

/-- `orderedInsert` over entity schemas projects to `orderedInsert`
over their types (the comparison only reads the `typ` field). -/
theorem map_typ_orderedInsert (e : entityTypeSchema) :
    ∀ l : List entityTypeSchema,
      (List.orderedInsert entityLE e l).map entityTypeSchema.typ =
        List.orderedInsert goTypeLE e.typ (l.map entityTypeSchema.typ)
  | [] => rfl
  | y :: ys => by
      by_cases h : entityLE e y
      · have h2 : goTypeLE e.typ y.typ := h
        simp only [List.orderedInsert, List.map_cons, if_pos h, if_pos h2]
      · have h2 : ¬ goTypeLE e.typ y.typ := h
        simp only [List.orderedInsert, List.map_cons, if_neg h, if_neg h2]
        rw [map_typ_orderedInsert e ys]

/-- The canonical sort of entity schemas projects to the canonical
sort of their types. -/
theorem map_typ_insertionSort :
    ∀ l : List entityTypeSchema,
      (List.insertionSort entityLE l).map entityTypeSchema.typ =
        List.insertionSort goTypeLE (l.map entityTypeSchema.typ)
  | [] => rfl
  | e :: rest => by
      rw [List.insertionSort, List.map_cons, List.insertionSort,
        map_typ_orderedInsert, map_typ_insertionSort rest]

/-- With collision-free qualified names, the canonically sorted type
list is the same for any two registration orders: the modelled
`compareTypes` order separates any two such types, so the sorted
permutation is unique. -/
theorem insertionSort_goTypeLE_eq {l₁ l₂ : List GoType} (hp : l₁.Perm l₂)
    (hn : (l₁.map GoType.sortName).Nodup) :
    List.insertionSort goTypeLE l₁ = List.insertionSort goTypeLE l₂ := by
  haveI : IsAntisymm GoType (fun a b : GoType => typeLess a b = true) :=
    ⟨fun a b h1 h2 => by
      have h3 : charsLt b.sortName.data a.sortName.data = true := h2
      rw [charsLt_asymm h1] at h3
      cases h3⟩
  have hperm : (List.insertionSort goTypeLE l₁).Perm
      (List.insertionSort goTypeLE l₂) :=
    (List.perm_insertionSort goTypeLE l₁).trans
      (hp.trans (List.perm_insertionSort goTypeLE l₂).symm)
  have strictOf : ∀ l : List GoType, (l.map GoType.sortName).Nodup →
      List.Sorted (fun a b : GoType => typeLess a b = true)
        (List.insertionSort goTypeLE l) := by
    intro l hnd
    have hs : List.Sorted goTypeLE (List.insertionSort goTypeLE l) :=
      List.sorted_insertionSort goTypeLE l
    have hnd' : ((List.insertionSort goTypeLE l).map GoType.sortName).Nodup := by
      have := (List.perm_insertionSort goTypeLE l).map GoType.sortName
      exact (this.nodup_iff).mpr hnd
    have hne : (List.insertionSort goTypeLE l).Pairwise
        (fun a b => a.sortName ≠ b.sortName) :=
      (List.pairwise_map).mp hnd'
    refine (hs.and hne).imp (fun {a b} hab => ?_)
    by_cases hlt : typeLess a b = true
    · exact hlt
    · exact absurd (strLt_connex ((Bool.not_eq_true _).mp hlt) hab.1) hab.2
  have hn₂ : (l₂.map GoType.sortName).Nodup :=
    ((hp.map GoType.sortName).nodup_iff).mp hn
  exact List.eq_of_perm_of_sorted hperm (strictOf l₁ hn) (strictOf l₂ hn₂)


/-- Inserting a type that is not yet a key appends it to the key
list. -/
theorem upsertTypeSchema_keys_fresh {m : List (GoType × entityTypeSchema)}
    {t : GoType} (ts : entityTypeSchema) (h : t ∉ m.map Prod.fst) :
    (upsertTypeSchema m t ts).map Prod.fst = m.map Prod.fst ++ [t] := by
  unfold upsertTypeSchema
  have hf : ¬ (m.find? (fun p => p.1 == t)).isSome = true := by
    intro hs
    rw [List.find?_isSome] at hs
    obtain ⟨x, hx, hpx⟩ := hs
    rw [beq_iff_eq] at hpx
    exact h (hpx ▸ List.mem_map_of_mem Prod.fst hx)
  rw [if_neg hf]
  simp

/-- Registering a mapping for a type that is not yet registered keeps
the type-schema map keyed exactly by the entity type list, appending
`t` to both. -/
theorem maybeAddTypeMapping_keys {sb : Schema} {t : GoType}
    {ams : List (Attr × List String)} {sb' : Schema} (hreg : RegInv sb)
    (h : maybeAddTypeMapping sb t ams = .ok sb')
    (hkeys : sb.entityTypeSchemas.map Prod.fst =
      sb.entityTypes.map entityTypeSchema.typ)
    (hfresh : t ∉ sb.entityTypes.map entityTypeSchema.typ) :
    sb'.entityTypeSchemas.map Prod.fst =
        sb'.entityTypes.map entityTypeSchema.typ ∧
      sb'.entityTypes.map entityTypeSchema.typ =
        sb.entityTypes.map entityTypeSchema.typ ++ [t] := by
  unfold maybeAddTypeMapping at h
  by_cases hsp : ¬ (t.isPtrKind = true ∧ t.elem.isStructKind = true)
  · rw [if_pos hsp] at h
    cases h
  · rw [if_neg hsp] at h
    cases h1 : addAttrMappings sb t ams with
    | error e => simp only [h1, ebind_err] at h; cases h
    | ok p =>
        obtain ⟨sb1, fis⟩ := p
        simp only [h1, ebind_ok] at h
        obtain ⟨-, -, het1, hets1⟩ := addAttrMappings_ok hreg h1
        cases h
        constructor
        · dsimp only
          rw [upsertTypeSchema_keys_fresh _ (by rw [hets1, hkeys]; exact hfresh)]
          rw [hets1, hkeys, het1]
          simp
        · dsimp only
          rw [het1]
          simp

/-- Through `addEntityMappings`, with pairwise-distinct types, the
type-schema map stays keyed exactly by the entity type list. -/
theorem addEntityMappings_keys :
    ∀ {ems : List (GoType × List (Attr × List String))} {sb sb' : Schema},
      BuildInv sb → addEntityMappings sb ems = .ok sb' →
      sb.entityTypeSchemas.map Prod.fst =
        sb.entityTypes.map entityTypeSchema.typ →
      (sb.entityTypes.map entityTypeSchema.typ ++ ems.map Prod.fst).Nodup →
      sb'.entityTypeSchemas.map Prod.fst =
        sb'.entityTypes.map entityTypeSchema.typ := by
  intro ems
  induction ems with
  | nil =>
      intro sb sb' hinv h hkeys hnd
      cases h
      exact hkeys
  | cons em rest ih =>
      intro sb sb' hinv h hkeys hnd
      obtain ⟨t, ams⟩ := em
      unfold addEntityMappings at h
      cases h1 : maybeAddTypeMapping sb t ams with
      | error e => simp only [h1, ebind_err] at h; cases h
      | ok sb1 =>
          simp only [h1, ebind_ok] at h
          have hfresh : t ∉ sb.entityTypes.map entityTypeSchema.typ := by
            intro hmem
            rcases List.nodup_append.mp hnd with ⟨-, -, hdisj⟩
            exact hdisj hmem (by simp)
          obtain ⟨hkeys1, htypes1⟩ :=
            maybeAddTypeMapping_keys hinv.reg h1 hkeys hfresh
          obtain ⟨hinv1, -, -⟩ := maybeAddTypeMapping_ok hinv h1
          refine ih hinv1 h hkeys1 ?_
          rw [htypes1]
          simp only [List.map_cons] at hnd
          rw [List.append_cons] at hnd
          exact hnd

/-- The rank the built schema assigns to a record type. -/
def rankOf (sc : Schema) (t : GoType) : Option Nat :=
  (sc.entityTypes.find? (fun e => e.typ == t)).map entityTypeSchema.typID

/-- Looking a type up in a rank-reassigned entity list finds the first
entry of that type, whose rank is its position (shifted by the base
rank). -/
theorem find?_assignRanks_typID (t : GoType) :
    ∀ (l : List entityTypeSchema) (i : Nat),
      ((assignRanks i l).find? (fun e => e.typ == t)).map entityTypeSchema.typID =
        (firstIdx t (l.map entityTypeSchema.typ)).map (· + i) := by
  intro l
  induction l with
  | nil => intro i; rfl
  | cons e rest ih =>
      intro i
      by_cases ht : e.typ = t
      · rw [assignRanks, List.find?_cons_of_pos _ (by simpa using ht),
          List.map_cons, ht, firstIdx_cons_self]
        simp
      · rw [assignRanks, List.find?_cons_of_neg _ (by simpa using ht),
          List.map_cons, firstIdx_cons_ne ht, ih (i + 1)]
        cases firstIdx t (rest.map entityTypeSchema.typ) with
        | none => rfl
        | some j =>
            simp only [Option.map_some', Option.some_inj]
            omega


/-- The declaration phase starting from the empty schema yields a
builder state with no entity types yet. -/
theorem addAttrDecls_buildInv {name : String} {ds : List (Attr × GoType)}
    {sb1 : Schema} (h1 : addAttrDecls (emptySchema name) ds = .ok sb1) :
    BuildInv sb1 ∧ sb1.entityTypes = [] ∧ sb1.entityTypeSchemas = [] := by
  obtain ⟨hreg1, -, het1, hets1⟩ := addAttrDecls_ok (regInv_empty name) h1
  refine ⟨⟨hreg1, ?_, ?_⟩, het1, hets1⟩
  · rw [het1]
    intro i hh
    simp [emptySchema] at hh
  · rw [hets1, het1]
    simp [emptySchema]

/-- In a successful build whose mapped types have pairwise-distinct
qualified names, the rank of a type is its position in the canonically
sorted list of mapped types — a pure function of the set of mapped
types. -/
theorem buildSchema_rankOf {name : String} {m : schemaMappings} {sc : Schema}
    (h : buildSchema name m = .ok sc)
    (hn : (m.entityMappings.map (fun em => em.1.sortName)).Nodup) :
    ∀ t, rankOf sc t =
      firstIdx t (List.insertionSort goTypeLE (m.entityMappings.map Prod.fst)) := by
  obtain ⟨sb1, sb2, sb3, sb5, o3, o5, h1, h2, h3, h5, hsc, -, -⟩ :=
    buildSchema_ok_phases h
  obtain ⟨hbinv1, het1, hets1⟩ := addAttrDecls_buildInv h1
  have hndtypes : (m.entityMappings.map Prod.fst).Nodup := by
    refine List.Nodup.of_map GoType.sortName ?_
    rw [List.map_map]
    exact hn
  obtain ⟨hbinv2, -, ⟨new, hnew, hmap⟩⟩ := addEntityMappings_ok hbinv1 h2
  have hE : sb2.entityTypes = new := by rw [hnew, het1]; rfl
  have hkeys2 : sb2.entityTypeSchemas.map Prod.fst =
      sb2.entityTypes.map entityTypeSchema.typ := by
    refine addEntityMappings_keys hbinv1 h2 ?_ ?_
    · rw [hets1, het1]
      simp
    · rw [het1]
      simpa using hndtypes
  obtain ⟨hreg3, -, het3, hets3, -⟩ := maybeAddAttribute_inv hbinv2.reg h3
  have hreg4 : RegInv { sb3 with selfOrdinal := o3 } :=
    ⟨hreg3.ord_eq, hreg3.len_eq, hreg3.nodup⟩
  obtain ⟨hreg5, -, het5, hets5, -⟩ := maybeAddAttribute_inv hreg4 h5
  have hets52 : sb5.entityTypeSchemas = sb2.entityTypeSchemas := by
    rw [hets5]
    dsimp only
    rw [hets3]
  have het52 : sb5.entityTypes = sb2.entityTypes := by
    rw [het5]
    dsimp only
    rw [het3]
  have hklen : sb5.entityTypeSchemas.length = sb2.entityTypes.length := by
    rw [hets52]
    have := congrArg List.length hkeys2
    simpa using this
  intro t
  subst hsc
  show ((sortEntityTypes { sb5 with typeOrdinal := o5 }).entityTypes.find?
      (fun e => e.typ == t)).map entityTypeSchema.typID = _
  rw [sortEntityTypes_entityTypes]
  have hshow : ({ sb5 with typeOrdinal := o5 } : Schema).entityTypes.take
        ({ sb5 with typeOrdinal := o5 } : Schema).entityTypeSchemas.length =
      sb2.entityTypes ∧
      ({ sb5 with typeOrdinal := o5 } : Schema).entityTypes.drop
        ({ sb5 with typeOrdinal := o5 } : Schema).entityTypeSchemas.length =
      [] := by
    dsimp only
    rw [het52, hklen]
    exact ⟨List.take_length sb2.entityTypes, List.drop_length sb2.entityTypes⟩
  rw [hshow.1, hshow.2, List.append_nil, find?_assignRanks_typID,
    map_typ_insertionSort]
  have hmap2 : sb2.entityTypes.map entityTypeSchema.typ =
      m.entityMappings.map Prod.fst := by
    rw [hE, hmap]
  rw [hmap2]
  cases firstIdx t (List.insertionSort goTypeLE (m.entityMappings.map Prod.fst)) with
  | none => rfl
  | some j => simp


/-! ### The claims -/

/-- C1: building a schema from the same set of attribute declarations
and record-type mappings in two different registration orders yields
identical `typeRank` (`typID`) assignments for every record type
(stated for mapped types with pairwise-distinct qualified names, the
collision-free case in which the modelled canonical order separates
any two types); and in any successfully built schema the ranks are
contiguous `0..T-1`, `T` the number of registered entity types. -/
theorem typeRank_deterministic :
    (∀ (name₁ name₂ : String) (m₁ m₂ : schemaMappings) (s₁ s₂ : Schema),
      m₁.attrTypes.Perm m₂.attrTypes →
      m₁.entityMappings.Perm m₂.entityMappings →
      (m₁.entityMappings.map (fun em => em.1.sortName)).Nodup →
      buildSchema name₁ m₁ = .ok s₁ →
      buildSchema name₂ m₂ = .ok s₂ →
      ∀ t, rankOf s₁ t = rankOf s₂ t) ∧
    (∀ (name : String) (m : schemaMappings) (sc : Schema),
      buildSchema name m = .ok sc →
      sc.entityTypes.map entityTypeSchema.typID =
        List.range sc.entityTypes.length) := by
  constructor
  · intro n₁ n₂ m₁ m₂ s₁ s₂ hpa hpe hn h₁ h₂ t
    have hn₂ : (m₂.entityMappings.map (fun em => em.1.sortName)).Nodup :=
      ((hpe.map (fun em => em.1.sortName)).nodup_iff).mp hn
    rw [buildSchema_rankOf h₁ hn t, buildSchema_rankOf h₂ hn₂ t,
      insertionSort_goTypeLE_eq (hpe.map Prod.fst)
        (by rw [List.map_map]; exact hn)]
  · intro name m sc h
    have hv := buildSchema_ok_valid h
    apply List.ext_getElem
    · simp
    · intro i h1 h2
      rw [List.getElem_map]
      rw [hv.typID_eq i (by simpa using h1)]
      simp

/-- A first record type used by the concrete examples. -/
def typeA : GoType := .ptr (.strukt "pkg.A" [("ID", 0, .int 64)])

/-- A second record type used by the concrete examples. -/
def typeB : GoType := .ptr (.strukt "pkg.B" [("ID", 0, .int 64)])

/-- A concrete configuration registering `typeB` before `typeA`. -/
def mRanks₁ : schemaMappings :=
  ⟨[], [(typeB, [(Attr.user "id", ["ID"])]), (typeA, [(Attr.user "id", ["ID"])])]⟩

/-- The same configuration with the two registrations swapped. -/
def mRanks₂ : schemaMappings :=
  ⟨[], [(typeA, [(Attr.user "id", ["ID"])]), (typeB, [(Attr.user "id", ["ID"])])]⟩

/-- The schema built from `mRanks₁`. -/
def schemaRanks₁ : Schema :=
  match buildSchema "r1" mRanks₁ with
  | .ok sc => sc
  | .error _ => emptySchema "r1"

/-- The schema built from `mRanks₂`. -/
def schemaRanks₂ : Schema :=
  match buildSchema "r2" mRanks₂ with
  | .ok sc => sc
  | .error _ => emptySchema "r2"

theorem typeRank_deterministic_witness :
    rankOf schemaRanks₁ typeA = rankOf schemaRanks₂ typeA ∧
    schemaRanks₁.entityTypes.map entityTypeSchema.typID =
      List.range schemaRanks₁.entityTypes.length := by
  refine ⟨typeRank_deterministic.1 "r1" "r2" mRanks₁ mRanks₂
      schemaRanks₁ schemaRanks₂ (List.Perm.refl _) (List.Perm.swap _ _ _)
      (by decide) rfl rfl typeA,
    typeRank_deterministic.2 "r1" mRanks₁ schemaRanks₁ rfl⟩


/-- C3: `NewSchema` either succeeds, returning a fully valid schema
and a nil error, or fails, returning no schema and the wrapped
descriptive error the deferred `recover` produces; exactly one of the
two results is present and no partially built schema is observable. -/
theorem NewSchema_valid_or_error (name : String) (m : schemaMappings) :
    (∃ sc, NewSchema name m = (some sc, none) ∧ ValidSchema sc) ∨
    (∃ e, NewSchema name m =
      (none, some { msg := "failed to construct schema", cause := e })) := by
  unfold NewSchema
  cases hb : buildSchema name m with
  | ok sc => exact Or.inl ⟨sc, rfl, buildSchema_ok_valid hb⟩
  | error e => exact Or.inr ⟨e, rfl⟩

/-- C2: in any successfully built schema the assigned ordinals are
exactly `{0, …, |A|-1}`, with no gaps and no repeats; and an
attribute's ordinal is assigned at its first registration as the next
index in registration order, an attribute registered again keeping its
original ordinal with the registry unchanged. -/
theorem ordinal_density_first_registration :
    (∀ (name : String) (m : schemaMappings) (sc : Schema),
      buildSchema name m = .ok sc →
      sc.attrs.Nodup ∧
      (∀ (a : Attr) (i : Nat), findOrd sc.attrToOrdinal a = some i →
        i < sc.attrs.length ∧ sc.attrs[i]? = some a) ∧
      (∀ i : Nat, i < sc.attrs.length →
        ∃ a, findOrd sc.attrToOrdinal a = some i) ∧
      (∀ (a b : Attr) (i : Nat), findOrd sc.attrToOrdinal a = some i →
        findOrd sc.attrToOrdinal b = some i → a = b)) ∧
    (∀ (sb : Schema) (a : Attr) (typ : GoType) (sb' : Schema) (ord : Nat),
      maybeAddAttribute sb a typ = .ok (sb', ord) →
      (findOrd sb.attrToOrdinal a = none →
        ord = sb.attrs.length ∧ sb'.attrs = sb.attrs ++ [a]) ∧
      (∀ o, findOrd sb.attrToOrdinal a = some o → sb' = sb ∧ ord = o)) := by
  constructor
  · intro name m sc h
    have hv := buildSchema_ok_valid h
    refine ⟨hv.nodup, ?_, ?_, ?_⟩
    · intro a i hfi
      rw [hv.ord_eq] at hfi
      exact ⟨firstIdx_lt_length hfi, firstIdx_getElem hfi⟩
    · intro i hi
      refine ⟨sc.attrs[i], ?_⟩
      rw [hv.ord_eq]
      exact firstIdx_of_nodup hv.nodup (List.getElem?_eq_getElem hi)
    · intro a b i ha hb
      rw [hv.ord_eq] at ha hb
      have ha' := firstIdx_getElem ha
      have hb' := firstIdx_getElem hb
      rw [ha'] at hb'
      exact Option.some_inj.mp hb'
  · intro sb a typ sb' ord h
    constructor
    · intro hnone
      rw [maybeAddAttribute_fresh hnone] at h
      by_cases hmax : maxUserAttribute ≤ sb.attrs.length
      · rw [if_pos hmax] at h
        cases h
      · rw [if_neg hmax] at h
        cases h
        exact ⟨rfl, rfl⟩
    · intro o hsome
      rw [maybeAddAttribute_existing hsome] at h
      by_cases hchk : checkType typ (sb.attrTypes.getD o GoType.str) = true
      · rw [if_pos hchk] at h
        cases h
        exact ⟨rfl, rfl⟩
      · rw [if_neg hchk] at h
        cases h

/-- A one-declaration configuration for the concrete examples. -/
def mOneAttr : schemaMappings := ⟨[(Attr.user "id", GoType.int 64)], []⟩

/-- The schema built from `mOneAttr`. -/
def schemaOneAttr : Schema :=
  match buildSchema "w" mOneAttr with
  | .ok sc => sc
  | .error _ => emptySchema "w"

theorem ordinal_density_first_registration_witness :
    schemaOneAttr.attrs.Nodup ∧
    (∃ a, findOrd schemaOneAttr.attrToOrdinal a = some 0) ∧
    (0 = (emptySchema "w").attrs.length ∧
      schemaOneAttr.attrs ≠ []) := by
  have h := ordinal_density_first_registration.1 "w" mOneAttr schemaOneAttr rfl
  have h2 := (ordinal_density_first_registration.2 (emptySchema "w")
    (Attr.user "id") (GoType.int 64)
    { emptySchema "w" with
        attrs := [Attr.user "id"],
        attrTypes := [GoType.int 64],
        attrToOrdinal := [(Attr.user "id", 0)] } 0 rfl).1 rfl
  exact ⟨h.1, h.2.2.1 0 (by decide), h2.1, by decide⟩


/-- C9: the reserved attributes `Self` and `Type` are present and
resolvable to an ordinal in every successfully built schema, even with
zero user attributes; and whenever the configuration does not itself
name them, they are registered last and hold the two highest ordinals
of the schema.  (The spec scopes the highest-ordinal guarantee to the
attributes callers actually use.) -/
theorem reserved_attributes_present :
    (∀ (name : String) (m : schemaMappings) (sc : Schema),
      buildSchema name m = .ok sc →
      (∃ o, getOrdinal sc Attr.self = .ok o) ∧
      (∃ o, getOrdinal sc Attr.typ = .ok o)) ∧
    (∀ (name : String) (m : schemaMappings) (sc : Schema),
      buildSchema name m = .ok sc →
      Attr.self ∉ mappingAttrs m → Attr.typ ∉ mappingAttrs m →
      2 ≤ sc.attrs.length ∧
      sc.selfOrdinal = sc.attrs.length - 2 ∧
      sc.typeOrdinal = sc.attrs.length - 1 ∧
      (∀ (a : Attr) (i : Nat), findOrd sc.attrToOrdinal a = some i →
        i ≤ sc.typeOrdinal ∧
        (a ≠ Attr.self → a ≠ Attr.typ → i < sc.selfOrdinal))) := by
  constructor
  · intro name m sc h
    have hv := buildSchema_ok_valid h
    constructor
    · refine ⟨sc.selfOrdinal, ?_⟩
      unfold getOrdinal
      rw [hv.self_ord]
    · refine ⟨sc.typeOrdinal, ?_⟩
      unfold getOrdinal
      rw [hv.typ_ord]
  · intro name m sc h hs ht
    have hv := buildSchema_ok_valid h
    obtain ⟨sb1, sb2, sb3, sb5, o3, o5, h1, h2, h3, h5, hsc, hfo3, hfo5⟩ :=
      buildSchema_ok_phases h
    obtain ⟨hreg1, ⟨l1, hl1, hmem1⟩, -, -⟩ := addAttrDecls_ok (regInv_empty name) h1
    obtain ⟨hbinv1, -, -⟩ := addAttrDecls_buildInv h1
    obtain ⟨hbinv2, ⟨l2, hl2, hmem2⟩, -⟩ := addEntityMappings_ok hbinv1 h2
    have hattrs2 : sb2.attrs = l1 ++ l2 := by
      rw [hl2, hl1]
      simp [emptySchema]
    have hmem : ∀ b ∈ sb2.attrs, b ∈ mappingAttrs m := by
      intro b hb
      rw [hattrs2] at hb
      unfold mappingAttrs
      rcases List.mem_append.mp hb with hb | hb
      · exact List.mem_append.mpr (Or.inl (hmem1 b hb))
      · exact List.mem_append.mpr (Or.inr (hmem2 b hb))
    have hselfnot : Attr.self ∉ sb2.attrs := fun hmm => hs (hmem _ hmm)
    have htypnot : Attr.typ ∉ sb2.attrs := fun hmm => ht (hmem _ hmm)
    have hfself : findOrd sb2.attrToOrdinal Attr.self = none := by
      rw [hbinv2.reg.ord_eq]
      exact (firstIdx_eq_none _ _).mpr hselfnot
    rw [maybeAddAttribute_fresh hfself] at h3
    by_cases hmax : maxUserAttribute ≤ sb2.attrs.length
    · rw [if_pos hmax] at h3
      cases h3
    rw [if_neg hmax] at h3
    cases h3
    have hftyp : findOrd ({ { sb2 with
        attrs := sb2.attrs ++ [Attr.self],
        attrTypes := sb2.attrTypes ++ [emptyInterfaceType],
        attrToOrdinal := sb2.attrToOrdinal ++ [(Attr.self, sb2.attrs.length)] }
          with selfOrdinal := sb2.attrs.length } : Schema).attrToOrdinal
        Attr.typ = none := by
      dsimp only
      rw [findOrd_append, hbinv2.reg.ord_eq,
        (firstIdx_eq_none _ _).mpr htypnot, findOrd_singleton]
      simp
    rw [maybeAddAttribute_fresh hftyp] at h5
    by_cases hmax2 : maxUserAttribute ≤
        ({ { sb2 with
          attrs := sb2.attrs ++ [Attr.self],
          attrTypes := sb2.attrTypes ++ [emptyInterfaceType],
          attrToOrdinal := sb2.attrToOrdinal ++ [(Attr.self, sb2.attrs.length)] }
            with selfOrdinal := sb2.attrs.length } : Schema).attrs.length
    · rw [if_pos hmax2] at h5
      cases h5
    rw [if_neg hmax2] at h5
    cases h5
    subst hsc
    refine ⟨?_, ?_, ?_, ?_⟩
    · show 2 ≤ ((sb2.attrs ++ [Attr.self]) ++ [Attr.typ]).length
      simp
    · show sb2.attrs.length = ((sb2.attrs ++ [Attr.self]) ++ [Attr.typ]).length - 2
      simp
    · show (sb2.attrs ++ [Attr.self]).length =
        ((sb2.attrs ++ [Attr.self]) ++ [Attr.typ]).length - 1
      simp
    · intro a i hfa
      have hlt := firstIdx_lt_length (hv.ord_eq a ▸ hfa)
      have hget := firstIdx_getElem (hv.ord_eq a ▸ hfa)
      have hlt2 : i < ((sb2.attrs ++ [Attr.self]) ++ [Attr.typ]).length := hlt
      constructor
      · show i ≤ (sb2.attrs ++ [Attr.self]).length
        simp only [List.length_append, List.length_cons, List.length_nil] at hlt2 ⊢
        omega
      · intro hnself hntyp
        show i < sb2.attrs.length
        by_contra hge
        push_neg at hge
        have hi2 : i = sb2.attrs.length ∨ i = sb2.attrs.length + 1 := by
          simp only [List.length_append, List.length_cons, List.length_nil] at hlt2
          omega
        have hgetshape : ((sb2.attrs ++ [Attr.self]) ++ [Attr.typ])[i]? = some a := hget
        rcases hi2 with rfl | rfl
        · rw [List.getElem?_append_left (by simp),
            List.getElem?_append_right (Nat.le_refl _)] at hgetshape
          simp at hgetshape
          exact hnself hgetshape.symm
        · rw [List.getElem?_append_right (by simp)] at hgetshape
          simp at hgetshape
          exact hntyp hgetshape.symm

/-- The empty configuration. -/
def mEmpty : schemaMappings := ⟨[], []⟩

/-- The schema built from the empty configuration. -/
def schemaEmpty : Schema :=
  match buildSchema "e" mEmpty with
  | .ok sc => sc
  | .error _ => emptySchema "e"

theorem reserved_attributes_present_witness :
    (∃ o, getOrdinal schemaEmpty Attr.self = .ok o) ∧
    (∃ o, getOrdinal schemaEmpty Attr.typ = .ok o) ∧
    schemaEmpty.selfOrdinal = schemaEmpty.attrs.length - 2 ∧
    schemaEmpty.typeOrdinal = schemaEmpty.attrs.length - 1 := by
  have h1 := reserved_attributes_present.1 "e" mEmpty schemaEmpty rfl
  have h2 := reserved_attributes_present.2 "e" mEmpty schemaEmpty rfl
    (by decide) (by decide)
  exact ⟨h1.1, h1.2, h2.2.1, h2.2.2.1⟩


/-- C4: the first use of an attribute fixes its declared type in the
schema's type table; every subsequent use of that attribute, on any
record type, keeps the original ordinal and succeeds exactly when
`checkType` accepts the new type against the fixed one — which holds
precisely when the new type matches the fixed type exactly, or the
fixed type is an interface the new type implements; otherwise
construction fails with the error naming the attribute and both
conflicting types. -/
theorem attribute_type_fixed_and_checked :
    (∀ (sb : Schema) (a : Attr) (typ : GoType) (sb' : Schema) (ord : Nat),
      RegInv sb →
      findOrd sb.attrToOrdinal a = none →
      maybeAddAttribute sb a typ = .ok (sb', ord) →
      sb'.attrTypes.getD ord GoType.str = typ ∧
      findOrd sb'.attrToOrdinal a = some ord) ∧
    (∀ (sb : Schema) (a : Attr) (typ : GoType) (ord : Nat),
      findOrd sb.attrToOrdinal a = some ord →
      maybeAddAttribute sb a typ =
        (if checkType typ (sb.attrTypes.getD ord GoType.str)
         then .ok (sb, ord)
         else .error (RelError.typeMismatch a typ
           (sb.attrTypes.getD ord GoType.str)))) ∧
    (∀ typ exp : GoType, checkType typ exp = true ↔
      (typ = exp ∨ (exp.isInterface = true ∧ typ.implements exp = true))) := by
  refine ⟨?_, ?_, ?_⟩
  · intro sb a typ sb' ord hreg hnone h
    rw [maybeAddAttribute_fresh hnone] at h
    by_cases hmax : maxUserAttribute ≤ sb.attrs.length
    · rw [if_pos hmax] at h
      cases h
    · rw [if_neg hmax] at h
      cases h
      refine ⟨?_, maybeAddAttribute_findOrd (by
        rw [maybeAddAttribute_fresh hnone, if_neg hmax])⟩
      show (sb.attrTypes ++ [typ]).getD sb.attrs.length GoType.str = typ
      unfold List.getD
      rw [List.get?_eq_getElem?,
        List.getElem?_append_right (by rw [hreg.len_eq])]
      rw [hreg.len_eq]
      simp
  · intro sb a typ ord hsome
    exact maybeAddAttribute_existing hsome
  · intro typ exp
    cases exp with
    | int w =>
        simp only [checkType, GoType.isInterface, GoType.implements]
        rw [if_neg (by simp)]
        simp [GoType.isInterface]
    | uint w =>
        simp only [checkType, GoType.isInterface, GoType.implements]
        rw [if_neg (by simp)]
        simp [GoType.isInterface]
    | str =>
        simp only [checkType, GoType.isInterface, GoType.implements]
        rw [if_neg (by simp)]
        simp [GoType.isInterface]
    | strukt n fs =>
        simp only [checkType, GoType.isInterface, GoType.implements]
        rw [if_neg (by simp)]
        simp [GoType.isInterface]
    | ptr t =>
        simp only [checkType, GoType.isInterface, GoType.implements]
        rw [if_neg (by simp)]
        simp [GoType.isInterface]
    | anyIface =>
        constructor
        · intro h
          exact Or.inr ⟨rfl, h⟩
        · intro h
          rfl
    | iface n impls =>
        constructor
        · intro h
          exact Or.inr ⟨rfl, h⟩
        · intro h
          rcases h with rfl | ⟨-, h⟩
          · show GoType.implements (GoType.iface n impls) (GoType.iface n impls) = true
            simp [GoType.implements, GoType.sortName]
          · exact h
    | reflectType =>
        constructor
        · intro h
          exact Or.inr ⟨rfl, h⟩
        · intro h
          rcases h with rfl | ⟨-, h⟩
          · rfl
          · exact h

/-- The builder state after registering one attribute `x : int64` on
the empty schema. -/
def schemaC4 : Schema :=
  match maybeAddAttribute (emptySchema "c4") (Attr.user "x") (GoType.int 64) with
  | .ok (sb, _) => sb
  | .error _ => emptySchema "c4"

theorem attribute_type_fixed_and_checked_witness :
    (schemaC4.attrTypes.getD 0 GoType.str = GoType.int 64 ∧
      findOrd schemaC4.attrToOrdinal (Attr.user "x") = some 0) ∧
    maybeAddAttribute schemaC4 (Attr.user "x") GoType.str =
      .error (RelError.typeMismatch (Attr.user "x") GoType.str (GoType.int 64)) ∧
    (GoType.strukt "pkg.T" [] = GoType.iface "I" ["pkg.T"] ∨
      ((GoType.iface "I" ["pkg.T"]).isInterface = true ∧
        (GoType.strukt "pkg.T" []).implements (GoType.iface "I" ["pkg.T"]) = true)) := by
  refine ⟨attribute_type_fixed_and_checked.1 (emptySchema "c4") (Attr.user "x")
      (GoType.int 64) schemaC4 0 (regInv_empty "c4") rfl rfl, ?_, ?_⟩
  · rw [attribute_type_fixed_and_checked.2.1 schemaC4 (Attr.user "x")
      GoType.str 0 rfl]
    rfl
  · exact (attribute_type_fixed_and_checked.2.2 (GoType.strukt "pkg.T" [])
      (GoType.iface "I" ["pkg.T"])).mp (by decide)


/-- C5: `comparableValue()` of a scalar field depends only on the
field's (dereferenced) value, so two distinct entity instances with
equal scalar field values give equal results; for a struct-reference
field the result is the reference identity, so two field values
pointing at different entities give unequal results regardless of the
pointed-to contents. -/
theorem comparableValue_semantics :
    (∀ (f : fieldInfo) (e₁ e₂ : GoVal),
      f.fieldFlags.isScalar = true → f.fieldFlags.isStruct = false →
      e₁ ≠ e₂ →
      getBySelector e₁ f.path = getBySelector e₂ f.path →
      f.comparableValue e₁ = f.comparableValue e₂) ∧
    (∀ (f : fieldInfo) (e₁ e₂ : GoVal) (a₁ a₂ : Nat),
      f.fieldFlags.isStruct = true →
      getBySelector e₁ f.path = some (GoVal.ptrStruct a₁) →
      getBySelector e₂ f.path = some (GoVal.ptrStruct a₂) →
      a₁ ≠ a₂ →
      f.comparableValue e₁ ≠ f.comparableValue e₂) := by
  constructor
  · intro f e₁ e₂ hsc hst hne hval
    unfold fieldInfo.comparableValue
    rw [hval]
  · intro f e₁ e₂ a₁ a₂ hst h1 h2 hne
    unfold fieldInfo.comparableValue
    rw [if_pos hst]
    simp only [h1]
    rw [if_pos hst]
    simp only [h2]
    simp [hne]

/-- An entity with a set optional scalar field and a struct reference,
and one with them unset, for the concrete accessor examples. -/
def tC5 : GoType :=
  .ptr (.strukt "pkg.C5"
    [("V", 0, .ptr (.int 64)), ("R", 8, .ptr (.strukt "pkg.Tgt" []))])

/-- The field descriptor the builder generates for selector `V` of
`tC5`. -/
def fiC5V : fieldInfo :=
  match addTypeAttrMapping (emptySchema "c5") (Attr.user "v") tC5 "V" with
  | .ok (_, fi) => fi
  | .error _ => { path := "", typ := .str, attr := 0, fieldFlags := ⟨0⟩ }

/-- The field descriptor the builder generates for selector `R` of
`tC5`. -/
def fiC5R : fieldInfo :=
  match addTypeAttrMapping (emptySchema "c5") (Attr.user "r") tC5 "R" with
  | .ok (_, fi) => fi
  | .error _ => { path := "", typ := .str, attr := 0, fieldFlags := ⟨0⟩ }

theorem comparableValue_semantics_witness :
    fiC5V.comparableValue
        (GoVal.structV [("V", GoVal.ptrScalar (GoVal.intV 7)),
          ("R", GoVal.ptrStruct 100)]) =
      fiC5V.comparableValue
        (GoVal.structV [("V", GoVal.ptrScalar (GoVal.intV 7)),
          ("R", GoVal.ptrStruct 200)]) ∧
    fiC5R.comparableValue
        (GoVal.structV [("V", GoVal.ptrScalar (GoVal.intV 7)),
          ("R", GoVal.ptrStruct 100)]) ≠
      fiC5R.comparableValue
        (GoVal.structV [("V", GoVal.ptrScalar (GoVal.intV 7)),
          ("R", GoVal.ptrStruct 200)]) := by
  constructor
  · exact comparableValue_semantics.1 fiC5V _ _ (by decide) (by decide)
      (by decide) (by decide)
  · exact comparableValue_semantics.2 fiC5R _ _ 100 200 (by decide)
      (by decide) (by decide) (by decide)

/-- The classifier produces exactly seven flag values. -/
theorem makeFieldFlags_cases {t : GoType} {flags : fieldFlags}
    (h : makeFieldFlags t = some flags) :
    flags = ⟨structField ||| pointerField⟩ ∨
    flags = ⟨stringField⟩ ∨ flags = ⟨stringField ||| pointerField⟩ ∨
    flags = ⟨intField⟩ ∨ flags = ⟨intField ||| pointerField⟩ ∨
    flags = ⟨uintField⟩ ∨ flags = ⟨uintField ||| pointerField⟩ := by
  cases t with
  | ptr t2 =>
      cases t2 <;>
        simp +decide [makeFieldFlags, GoType.isPtrKind, GoType.elem,
          GoType.isStructKind, GoType.isIntKind, GoType.isUintKind,
          fieldFlags.isPtr, pointerField] at h <;>
        (cases h; decide)
  | _ =>
      (simp +decide [makeFieldFlags, GoType.isPtrKind, GoType.elem,
        GoType.isStructKind, GoType.isIntKind, GoType.isUintKind,
        fieldFlags.isPtr, pointerField] at h) <;>
      (cases h; decide)

/-- `inline()` is constantly `(0, false)` for fields that are not
integer-like. -/
theorem inline_of_not_intlike {f : fieldInfo}
    (hInt : f.fieldFlags.isInt = false) (hUint : f.fieldFlags.isUint = false)
    (e : GoVal) : f.inline e = (0, false) := by
  unfold fieldInfo.inline
  rw [if_neg (by simp [hInt]), if_neg (by simp [hUint]),
    if_neg (by simp [hInt]), if_neg (by simp [hUint])]

/-- The record type with one optional integer field for the concrete
accessor examples. -/
def tC6 : GoType := .ptr (.strukt "pkg.Opt" [("N", 0, .ptr (.int 64))])

/-- The field descriptor the builder generates for selector `N` of
`tC6`. -/
def fiC6 : fieldInfo :=
  match addTypeAttrMapping (emptySchema "c6") (Attr.user "n") tC6 "N" with
  | .ok (_, fi) => fi
  | .error _ => { path := "", typ := .str, attr := 0, fieldFlags := ⟨0⟩ }

/-- C6: for the pointer-wrapped (optional) integer field, `value()` of
an unset instance is absent and `inline()` is `(0, false)`; with the
field set to `7`, `value()` is `7` and `inline()` is `(7, true)`; and
for every string-kind or struct-kind field the generated `inline()`
returns `(0, false)` on every entity. -/
theorem accessor_correctness :
    (fiC6.value (GoVal.structV [("N", GoVal.ptrNil)]) = none ∧
      fiC6.inline (GoVal.structV [("N", GoVal.ptrNil)]) = (0, false)) ∧
    (fiC6.value (GoVal.structV [("N", GoVal.ptrScalar (GoVal.intV 7))]) =
        some (GoVal.intV 7) ∧
      fiC6.inline (GoVal.structV [("N", GoVal.ptrScalar (GoVal.intV 7))]) =
        (7, true)) ∧
    (∀ (t : GoType) (flags : fieldFlags) (f : fieldInfo) (e : GoVal),
      makeFieldFlags t = some flags →
      f.fieldFlags = flags →
      flags.isString = true ∨ flags.isStruct = true →
      f.inline e = (0, false)) := by
  refine ⟨⟨by decide, by decide⟩, ⟨by decide, by decide⟩, ?_⟩
  intro t flags f e hm hff hor
  have hmask : flags.isInt = false ∧ flags.isUint = false := by
    rcases makeFieldFlags_cases hm with rfl | rfl | rfl | rfl | rfl | rfl | rfl <;>
      first
        | exact ⟨by decide, by decide⟩
        | (rcases hor with hh | hh <;> exact absurd hh (by decide))
  exact inline_of_not_intlike (by rw [hff]; exact hmask.1)
    (by rw [hff]; exact hmask.2) e


/-- C8: resolving selector `"A.B"` on a record type whose field `A` is
a nested struct containing field `B` yields the sum of the two field
offsets together with `B`'s declared type; a selector segment that
does not name a field of the current struct shape aborts construction
with the error naming the type and the selector. -/
theorem selector_resolution :
    (∀ (T N : String) (fieldsA fieldsB : List (String × Nat × GoType))
       (offA offB : Nat) (tB : GoType),
      findFieldByName fieldsA "A" = some (offA, GoType.strukt N fieldsB) →
      findFieldByName fieldsB "B" = some (offB, tB) →
      getOffsetAndTypeFromSelector (.ptr (.strukt T fieldsA)) "A.B" =
        .ok (offA + offB, tB)) ∧
    (∀ (T N : String) (fieldsA fieldsB : List (String × Nat × GoType))
       (offA : Nat),
      findFieldByName fieldsA "A" = some (offA, GoType.strukt N fieldsB) →
      findFieldByName fieldsB "Z" = none →
      getOffsetAndTypeFromSelector (.ptr (.strukt T fieldsA)) "A.Z" =
        .error (.notAField (.ptr (.strukt T fieldsA)) "A.Z")) := by
  constructor
  · intro T N fieldsA fieldsB offA offB tB hA hB
    unfold getOffsetAndTypeFromSelector
    rw [show splitOnDot "A.B" = ["A", "B"] from rfl]
    show resolveSelector _ _ _ 0 (GoType.strukt T fieldsA) = _
    simp only [resolveSelector, hA, hB]
    simp
  · intro T N fieldsA fieldsB offA hA hZ
    unfold getOffsetAndTypeFromSelector
    rw [show splitOnDot "A.Z" = ["A", "Z"] from rfl]
    show resolveSelector _ _ _ 0 (GoType.strukt T fieldsA) = _
    simp only [resolveSelector, hA, hZ]

/-- The nested record type for the concrete selector examples. -/
def tC8 : GoType :=
  .ptr (.strukt "pkg.C8" [("A", 4, .strukt "pkg.N" [("B", 8, .str)])])

theorem selector_resolution_witness :
    getOffsetAndTypeFromSelector tC8 "A.B" = .ok (12, .str) ∧
    getOffsetAndTypeFromSelector tC8 "A.Z" = .error (.notAField tC8 "A.Z") := by
  constructor
  · exact selector_resolution.1 "pkg.C8" "pkg.N" _ _ 4 8 .str rfl rfl
  · exact selector_resolution.2 "pkg.C8" "pkg.N" _ _ 4 rfl rfl

/-- The record type with a plain scalar field, and the one carrying
the same attribute as a pointer-wrapped scalar. -/
def tC10a : GoType := .ptr (.strukt "pkg.P" [("X", 0, .int 64)])

/-- The optional-field variant of `tC10a`. -/
def tC10b : GoType := .ptr (.strukt "pkg.Q" [("X", 0, .ptr (.int 64))])

/-- A configuration mapping one attribute to `X int64` on one record
type and to `X *int64` on another. -/
def mC10 : schemaMappings :=
  ⟨[], [(tC10a, [(Attr.user "x", ["X"])]), (tC10b, [(Attr.user "x", ["X"])])]⟩

/-- The schema built from `mC10`. -/
def schemaC10 : Schema :=
  match buildSchema "c10" mC10 with
  | .ok sc => sc
  | .error _ => emptySchema "c10"

/-- C10: when a selector resolves to a pointer-wrapped scalar field,
the pointer is stripped before the attribute type is registered: the
generated field descriptor carries the element type and the attribute
is registered (and `checkType`-validated) at the element type.
Consequently a configuration mapping the same attribute to a plain
`int64` field on one record type and to an `*int64` field on another
builds successfully. -/
theorem pointer_scalar_unwrap :
    (∀ (sb : Schema) (a : Attr) (t : GoType) (sel : String) (sb' : Schema)
       (fi : fieldInfo) (off : Nat) (cur : GoType) (flags : fieldFlags),
      addTypeAttrMapping sb a t sel = .ok (sb', fi) →
      getOffsetAndTypeFromSelector t sel = .ok (off, cur) →
      makeFieldFlags cur = some flags →
      flags.isPtr = true → flags.isScalar = true →
      fi.typ = cur.elem ∧
      maybeAddAttribute sb a cur.elem = .ok (sb', fi.attr)) ∧
    buildSchema "c10" mC10 = .ok schemaC10 := by
  constructor
  · intro sb a t sel sb' fi off cur flags h hoff hflags hp hs
    unfold addTypeAttrMapping at h
    rw [hoff, ebind_ok] at h
    simp only [hflags] at h
    rw [if_pos (by simp [hp, hs])] at h
    cases h3 : maybeAddAttribute sb a cur.elem with
    | error e => rw [h3, ebind_err] at h; cases h
    | ok p =>
        obtain ⟨sb2, ord⟩ := p
        rw [h3, ebind_ok] at h
        cases h
        exact ⟨rfl, rfl⟩
  · rfl

theorem pointer_scalar_unwrap_witness :
    (match addTypeAttrMapping (emptySchema "w10") (Attr.user "x") tC10b "X" with
      | .ok (_, fi) => fi.typ
      | .error _ => GoType.str) = GoType.int 64 := by
  have h := pointer_scalar_unwrap.1 (emptySchema "w10") (Attr.user "x") tC10b "X"
    _ _ 0 (GoType.ptr (GoType.int 64)) ⟨pointerField ||| intField⟩
    rfl rfl rfl (by decide) (by decide)
  exact h.1


/-- Forward evaluation of `buildSchema` from its phase results. -/
theorem buildSchema_eq {name : String} {m : schemaMappings}
    {sb1 sb2 sb3 sb5 : Schema} {o3 o5 : Nat}
    (h1 : addAttrDecls (emptySchema name) m.attrTypes = .ok sb1)
    (h2 : addEntityMappings sb1 m.entityMappings = .ok sb2)
    (h3 : maybeAddAttribute sb2 Attr.self emptyInterfaceType = .ok (sb3, o3))
    (hfo3 : findOrd sb3.attrToOrdinal Attr.self = some o3)
    (h5 : maybeAddAttribute { sb3 with selfOrdinal := o3 } Attr.typ
      reflectTypeType = .ok (sb5, o5))
    (hfo5 : findOrd sb5.attrToOrdinal Attr.typ = some o5) :
    buildSchema name m = .ok (sortEntityTypes { sb5 with typeOrdinal := o5 }) := by
  have hmg3 : mustGetOrdinal sb3 Attr.self = .ok o3 := by
    unfold mustGetOrdinal getOrdinal
    rw [hfo3]
  have hmg5 : mustGetOrdinal sb5 Attr.typ = .ok o5 := by
    unfold mustGetOrdinal getOrdinal
    rw [hfo5]
  unfold buildSchema
  simp only [h1, ebind_ok, h2, h3, hmg3, h5, hmg5]

/-- Forward evaluation of `buildSchema` when the `Type` registration
step fails. -/
theorem buildSchema_eq_error {name : String} {m : schemaMappings}
    {sb1 sb2 sb3 : Schema} {o3 : Nat} {e : RelError}
    (h1 : addAttrDecls (emptySchema name) m.attrTypes = .ok sb1)
    (h2 : addEntityMappings sb1 m.entityMappings = .ok sb2)
    (h3 : maybeAddAttribute sb2 Attr.self emptyInterfaceType = .ok (sb3, o3))
    (hfo3 : findOrd sb3.attrToOrdinal Attr.self = some o3)
    (h5 : maybeAddAttribute { sb3 with selfOrdinal := o3 } Attr.typ
      reflectTypeType = .error e) :
    buildSchema name m = .error e := by
  have hmg3 : mustGetOrdinal sb3 Attr.self = .ok o3 := by
    unfold mustGetOrdinal getOrdinal
    rw [hfo3]
  unfold buildSchema
  simp only [h1, ebind_ok, h2, h3, hmg3, h5, ebind_err]

/-- Registering a list of pairwise-distinct fresh attributes succeeds
as long as the capacity is not exceeded, appending them in order. -/
theorem addAttrDecls_fresh :
    ∀ (ds : List (Attr × GoType)) (sb : Schema),
      RegInv sb →
      (ds.map Prod.fst).Nodup →
      (∀ b ∈ ds.map Prod.fst, b ∉ sb.attrs) →
      sb.attrs.length + ds.length ≤ maxUserAttribute →
      ∃ sb', addAttrDecls sb ds = .ok sb' ∧ RegInv sb' ∧
        sb'.attrs = sb.attrs ++ ds.map Prod.fst ∧
        sb'.entityTypes = sb.entityTypes ∧
        sb'.entityTypeSchemas = sb.entityTypeSchemas := by
  intro ds
  induction ds with
  | nil =>
      intro sb hreg hnd hfresh hcap
      exact ⟨sb, rfl, hreg, by simp, rfl, rfl⟩
  | cons d rest ih =>
      intro sb hreg hnd hfresh hcap
      obtain ⟨a, ty⟩ := d
      have hanot : a ∉ sb.attrs := hfresh a (by simp)
      have hfa : findOrd sb.attrToOrdinal a = none := by
        rw [hreg.ord_eq]
        exact (firstIdx_eq_none _ _).mpr hanot
      have hmax : ¬ maxUserAttribute ≤ sb.attrs.length := by
        simp only [List.length_cons] at hcap
        omega
      have h1 : maybeAddAttribute sb a ty = .ok ({ sb with
          attrs := sb.attrs ++ [a],
          attrTypes := sb.attrTypes ++ [ty],
          attrToOrdinal := sb.attrToOrdinal ++ [(a, sb.attrs.length)] },
          sb.attrs.length) := by
        rw [maybeAddAttribute_fresh hfa, if_neg hmax]
      obtain ⟨hreg1, -, -, -, -⟩ := maybeAddAttribute_inv hreg h1
      have hnd' : (rest.map Prod.fst).Nodup := by
        simp only [List.map_cons, List.nodup_cons] at hnd
        exact hnd.2
      have hfresh' : ∀ b ∈ rest.map Prod.fst,
          b ∉ sb.attrs ++ [a] := by
        intro b hb hmem
        rcases List.mem_append.mp hmem with hmem | hmem
        · exact hfresh b (by simp [hb]) hmem
        · have hba : b = a := by simpa using hmem
          simp only [List.map_cons, List.nodup_cons] at hnd
          exact hnd.1 (hba ▸ hb)
      have hcap' : (sb.attrs ++ [a]).length + rest.length ≤ maxUserAttribute := by
        simp only [List.length_append, List.length_cons, List.length_nil] at hcap ⊢
        omega
      obtain ⟨sb', hrest, hreg', hattrs', het', hets'⟩ := ih _ hreg1 hnd' hfresh' hcap'
      refine ⟨sb', ?_, hreg', ?_, het', hets'⟩
      · unfold addAttrDecls
        rw [h1, ebind_ok]
        exact hrest
      · rw [hattrs']
        simp


/-- Packaging of a successful fresh registration. -/
theorem maybeAddAttribute_fresh_ok {sb : Schema} {a : Attr} {typ : GoType}
    (hfa : findOrd sb.attrToOrdinal a = none)
    (hmax : ¬ maxUserAttribute ≤ sb.attrs.length) :
    ∃ sb', maybeAddAttribute sb a typ = .ok (sb', sb.attrs.length) ∧
      sb'.attrs = sb.attrs ++ [a] ∧
      sb'.attrToOrdinal = sb.attrToOrdinal ++ [(a, sb.attrs.length)] := by
  exact ⟨_, by rw [maybeAddAttribute_fresh hfa, if_neg hmax], rfl, rfl⟩

/-- C7: construction admits exactly `maxUserAttribute` registered
attributes in total, the reserved `Self` and `Type` among them: a
configuration declaring `maxUserAttribute - 2` distinct user
attributes — which brings the registered total to exactly the
configured maximum — builds successfully with a full attribute table,
while declaring one more attribute makes registration exceed the
maximum and construction fails with the `too many attributes`
error. -/
theorem max_attribute_boundary :
    (∀ (name : String) (decls : List (Attr × GoType)),
      (decls.map Prod.fst).Nodup →
      Attr.self ∉ decls.map Prod.fst →
      Attr.typ ∉ decls.map Prod.fst →
      decls.length = maxUserAttribute - 2 →
      ∃ sc, buildSchema name ⟨decls, []⟩ = .ok sc ∧
        sc.attrs.length = maxUserAttribute) ∧
    (∀ (name : String) (decls : List (Attr × GoType)),
      (decls.map Prod.fst).Nodup →
      Attr.self ∉ decls.map Prod.fst →
      Attr.typ ∉ decls.map Prod.fst →
      decls.length = maxUserAttribute - 1 →
      buildSchema name ⟨decls, []⟩ = .error RelError.tooManyAttributes) := by
  have hm64 : maxUserAttribute = 64 := rfl
  constructor
  · intro name decls hnd hs ht hlen
    obtain ⟨sb1, h1, hreg1, hattrs1, -, -⟩ :=
      addAttrDecls_fresh decls (emptySchema name) (regInv_empty name) hnd
        (by intro b hb; simp [emptySchema])
        (by simp only [emptySchema, List.length_nil]; omega)
    have hattrs1' : sb1.attrs = decls.map Prod.fst := by
      rw [hattrs1]
      simp [emptySchema]
    have hlen1 : sb1.attrs.length = maxUserAttribute - 2 := by
      rw [hattrs1', List.length_map]
      exact hlen
    have hfs : findOrd sb1.attrToOrdinal Attr.self = none := by
      rw [hreg1.ord_eq]
      refine (firstIdx_eq_none _ _).mpr ?_
      rw [hattrs1']
      exact hs
    obtain ⟨sb3, h3, hat3, hord3⟩ :=
      @maybeAddAttribute_fresh_ok sb1 Attr.self emptyInterfaceType hfs
        (by omega)
    have hfo3 : findOrd sb3.attrToOrdinal Attr.self = some sb1.attrs.length :=
      maybeAddAttribute_findOrd h3
    have hft : findOrd ({ sb3 with selfOrdinal := sb1.attrs.length }
        : Schema).attrToOrdinal Attr.typ = none := by
      show findOrd sb3.attrToOrdinal Attr.typ = none
      rw [hord3, findOrd_append, hreg1.ord_eq,
        (firstIdx_eq_none _ _).mpr (by rw [hattrs1']; exact ht),
        findOrd_singleton]
      simp
    have hlen3 : sb3.attrs.length = maxUserAttribute - 1 := by
      rw [hat3]
      simp only [List.length_append, List.length_cons, List.length_nil]
      omega
    obtain ⟨sb5, h5, hat5, -⟩ :=
      @maybeAddAttribute_fresh_ok ({ sb3 with selfOrdinal := sb1.attrs.length })
        Attr.typ reflectTypeType hft
        (by show ¬ maxUserAttribute ≤ sb3.attrs.length; omega)
    have hfo5 : findOrd sb5.attrToOrdinal Attr.typ =
        some ({ sb3 with selfOrdinal := sb1.attrs.length } : Schema).attrs.length :=
      maybeAddAttribute_findOrd h5
    refine ⟨_, buildSchema_eq h1 rfl h3 hfo3 h5 hfo5, ?_⟩
    show sb5.attrs.length = maxUserAttribute
    rw [hat5]
    simp only [List.length_append, List.length_cons, List.length_nil]
    show sb3.attrs.length + 1 = maxUserAttribute
    omega
  · intro name decls hnd hs ht hlen
    obtain ⟨sb1, h1, hreg1, hattrs1, -, -⟩ :=
      addAttrDecls_fresh decls (emptySchema name) (regInv_empty name) hnd
        (by intro b hb; simp [emptySchema])
        (by simp only [emptySchema, List.length_nil]; omega)
    have hattrs1' : sb1.attrs = decls.map Prod.fst := by
      rw [hattrs1]
      simp [emptySchema]
    have hlen1 : sb1.attrs.length = maxUserAttribute - 1 := by
      rw [hattrs1', List.length_map]
      exact hlen
    have hfs : findOrd sb1.attrToOrdinal Attr.self = none := by
      rw [hreg1.ord_eq]
      refine (firstIdx_eq_none _ _).mpr ?_
      rw [hattrs1']
      exact hs
    obtain ⟨sb3, h3, hat3, hord3⟩ :=
      @maybeAddAttribute_fresh_ok sb1 Attr.self emptyInterfaceType hfs
        (by omega)
    have hfo3 : findOrd sb3.attrToOrdinal Attr.self = some sb1.attrs.length :=
      maybeAddAttribute_findOrd h3
    have hft : findOrd ({ sb3 with selfOrdinal := sb1.attrs.length }
        : Schema).attrToOrdinal Attr.typ = none := by
      show findOrd sb3.attrToOrdinal Attr.typ = none
      rw [hord3, findOrd_append, hreg1.ord_eq,
        (firstIdx_eq_none _ _).mpr (by rw [hattrs1']; exact ht),
        findOrd_singleton]
      simp
    have hlen3 : sb3.attrs.length = maxUserAttribute := by
      rw [hat3]
      simp only [List.length_append, List.length_cons, List.length_nil]
      omega
    have h5 : maybeAddAttribute ({ sb3 with selfOrdinal := sb1.attrs.length })
        Attr.typ reflectTypeType = .error RelError.tooManyAttributes := by
      rw [maybeAddAttribute_fresh hft,
        if_pos (show maxUserAttribute ≤ sb3.attrs.length by omega)]
    exact buildSchema_eq_error h1 rfl h3 hfo3 h5


/-- Witness for the attribute-capacity boundary at concrete
configurations with 62 and 63 declared user attributes. -/
theorem max_attribute_boundary_witness :
    (∃ sc, buildSchema "db"
        ⟨(List.range 62).map (fun i => (Attr.user (toString i), GoType.int 64)),
          []⟩ = .ok sc ∧ sc.attrs.length = maxUserAttribute) ∧
    buildSchema "db"
        ⟨(List.range 63).map (fun i => (Attr.user (toString i), GoType.int 64)),
          []⟩ = .error RelError.tooManyAttributes :=
  ⟨max_attribute_boundary.1 "db" _ (by decide) (by decide) (by decide) (by decide),
   max_attribute_boundary.2 "db" _ (by decide) (by decide) (by decide) (by decide)⟩


/-- Witness for the accessor theorem at a concrete string-kind field:
the generated `inline` returns `(0, false)` on an entity holding the
string `"x"`. -/
theorem accessor_correctness_witness :
    makeFieldFlags GoType.str = some ⟨stringField⟩ ∧
    fieldInfo.inline
      { path := "S", typ := GoType.str, attr := 0, fieldFlags := ⟨stringField⟩ }
      (GoVal.strV "x") = (0, false) :=
  ⟨by decide,
   accessor_correctness.2.2 GoType.str ⟨stringField⟩
     { path := "S", typ := GoType.str, attr := 0, fieldFlags := ⟨stringField⟩ }
     (GoVal.strV "x") (by decide) rfl (Or.inl (by decide))⟩

end Rel
